import Mathlib

/-!
# Deployment script `scripts/deploy.js`

A shallow embedding of the Hardhat deployment script and of the argument-persistence helper
`saveArguments` that lives next to it.

* JavaScript strings are sequences of UTF-16 code units.
* The external chain-interaction toolkit (`hre.ethers`) is an arbitrary state machine: every
  call either resolves with a value or rejects with an error value, and may change the toolkit's
  own state. Quantifying over the toolkit and its initial state covers every behaviour of the
  toolkit in which each awaited call settles.
* The process is a record of the observable effects: the toolkit calls issued so far, the lines
  written to standard output, the values written to standard error and `process.exitCode`.
-/

namespace Deploy

/-! ## JavaScript strings -/

/-- One UTF-16 code unit. -/
abbrev CodeUnit := Fin 65536

/-- A JavaScript string value: a finite sequence of UTF-16 code units. -/
abbrev JSString := List CodeUnit

/-- The code unit with the given number (reduced modulo `2^16`). -/
def codeUnit (n : Nat) : CodeUnit := ⟨n % 65536, Nat.mod_lt _ (by decide)⟩

/-- UTF-16 encoding of one Unicode scalar value. -/
def utf16 (c : Char) : List CodeUnit :=
  if c.toNat < 65536 then [codeUnit c.toNat]
  else [codeUnit (0xD800 + (c.toNat - 65536) / 1024), codeUnit (0xDC00 + (c.toNat - 65536) % 1024)]

/-- The JavaScript string denoted by a string literal of the source. -/
def js (s : String) : JSString := (s.toList.map utf16).flatten

/-! ## The external toolkit and the process -/

/-- A call of the script into the chain-interaction toolkit.
`deploy c args` is `deploy(...args)` invoked on the factory that `getContractFactory(c)` resolved
to, and `deployed c` is `deployed()` invoked on the handle which that factory's `deploy` resolved
to. -/
inductive ToolkitCall where
  | getContractFactory (name : JSString)
  | deploy (contract : JSString) (args : List JSString)
  | deployed (contract : JSString)
  deriving DecidableEq

/-- One settled toolkit call: `rejection = none` when the awaited promise resolved, and
`rejection = some e` when it rejected with the error value `e`. -/
structure TraceEntry (E : Type) where
  call : ToolkitCall
  rejection : Option E

/-- The chain-interaction toolkit, with state `σ`, factories `F`, contract handles `H` and error
values `E`. Each operation settles with a value or an error and a new toolkit state. -/
structure Toolkit (σ F H E : Type) where
  getContractFactory : JSString → σ → Except E F × σ
  deploy : F → List JSString → σ → Except E H × σ
  deployed : H → σ → Except E Unit × σ
  address : H → JSString

/-- The observable state of the running process. -/
structure Process (σ E : Type) where
  chain : σ
  calls : List (TraceEntry E)
  stdout : List JSString
  stderr : List E
  exitCode : Option Nat

/-- The process as the script starts: nothing called, nothing written, `process.exitCode` unset. -/
def Process.start {σ E : Type} (s : σ) : Process σ E :=
  { chain := s, calls := [], stdout := [], stderr := [], exitCode := none }

/-- The exit status the process terminates with: `process.exitCode` when set, `0` otherwise. -/
def Process.exitStatus {σ E : Type} (p : Process σ E) : Nat := p.exitCode.getD 0

/-- A computation inside the `async` function: it runs on the process and either resolves with a
value or rejects with an error value. -/
def Async (σ E α : Type) : Type := Process σ E → Except E α × Process σ E

/-- Sequencing of awaited computations: a rejection skips everything that follows. -/
def Async.bind {σ E α β : Type} (m : Async σ E α) (f : α → Async σ E β) : Async σ E β :=
  fun p =>
    match m p with
    | (.ok a, p1) => f a p1
    | (.error e, p1) => (.error e, p1)

instance {σ E : Type} : Monad (Async σ E) where
  pure a := fun p => (.ok a, p)
  bind := Async.bind

/-- An awaited toolkit call: the call is issued on the toolkit state and recorded, with its
outcome, at the end of the trace. -/
def await {σ E α : Type} (call : ToolkitCall) (op : σ → Except E α × σ) : Async σ E α :=
  fun p =>
    match op p.chain with
    | (.ok a, s) => (.ok a, { p with chain := s, calls := p.calls ++ [⟨call, none⟩] })
    | (.error e, s) => (.error e, { p with chain := s, calls := p.calls ++ [⟨call, some e⟩] })

/-- A toolkit object together with the contract name its factory was requested by. -/
structure Named (α : Type) where
  contract : JSString
  obj : α

/-- The awaited call `hre.ethers.getContractFactory(name)`. -/
def getContractFactory {σ F H E : Type} (hre : Toolkit σ F H E) (name : JSString) :
    Async σ E (Named F) :=
  await (.getContractFactory name) (fun s =>
    match hre.getContractFactory name s with
    | (.ok f, s1) => (.ok ⟨name, f⟩, s1)
    | (.error e, s1) => (.error e, s1))

/-- The awaited call `factory.deploy(...args)`. -/
def deploy {σ F H E : Type} (hre : Toolkit σ F H E) (factory : Named F) (args : List JSString) :
    Async σ E (Named H) :=
  await (.deploy factory.contract args) (fun s =>
    match hre.deploy factory.obj args s with
    | (.ok h, s1) => (.ok ⟨factory.contract, h⟩, s1)
    | (.error e, s1) => (.error e, s1))

/-- The awaited call `contract.deployed()`. -/
def deployed {σ F H E : Type} (hre : Toolkit σ F H E) (contract : Named H) : Async σ E Unit :=
  await (.deployed contract.contract) (hre.deployed contract.obj)

/-- The field read `contract.address`. -/
def address {σ F H E : Type} (hre : Toolkit σ F H E) (contract : Named H) : JSString :=
  hre.address contract.obj

/-- The call `console.log(line)`: one more line on standard output. -/
def consoleLog {σ E : Type} (line : JSString) : Async σ E Unit :=
  fun p => (.ok (), { p with stdout := p.stdout ++ [line] })

/-- The call `console.error(error)`: one more value on standard error. -/
def consoleError {σ E : Type} (error : E) (p : Process σ E) : Process σ E :=
  { p with stderr := p.stderr ++ [error] }

/-! ## The script -/

/-- The `async function main()` of the script. -/
def main {σ F H E : Type} (hre : Toolkit σ F H E) : Async σ E Unit := do
  let Market ← getContractFactory hre (js "MarketPlace")
  let market ← deploy hre Market []
  deployed hre market
  consoleLog (js "Market: " ++ address hre market)
  let ERC721 ← getContractFactory hre (js "ERC721Royalty")
  let erc721 ← deploy hre ERC721 [js "MarketCollection", js "MKC"]
  deployed hre erc721
  consoleLog (js "ERC721: " ++ address hre erc721)

/-- The top-level statement `main().catch((error) => ...)`, run from the start of the process with
the toolkit in state `s`: a rejection of `main` is written to standard error and sets
`process.exitCode` to `1`. -/
def script {σ F H E : Type} (hre : Toolkit σ F H E) (s : σ) : Process σ E :=
  match main hre (Process.start s) with
  | (.ok _, p) => p
  | (.error error, p) => { consoleError error p with exitCode := some 1 }

/-! ## The Node.js runtime: `path` (POSIX)

The functions of the `path` module the script calls, after `lib/path.js`. A path is handled as
its `/`-separated segments. -/

/-- The path separator `/`. -/
def slash : CodeUnit := 47

/-- The character `.`. -/
def dot : CodeUnit := 46

/-- The segments of a string between its `/` separators, empty segments included. -/
def splitSlash : JSString → List JSString
  | [] => [[]]
  | c :: rest =>
    if c = slash then [] :: splitSlash rest
    else
      match splitSlash rest with
      | [] => [[c]]
      | seg :: segs => (c :: seg) :: segs

/-- Segments joined with `/`. -/
def joinSlash (segs : List JSString) : JSString := List.intercalate [slash] segs

/-- What `normalizeString` does with one more segment, `res` being the segments kept so far: an
empty segment and `.` are dropped, `..` removes the last kept segment (or is kept itself, above
the root of a relative path), any other segment is kept. -/
def normalizeSegment (allowAboveRoot : Bool) (res : List JSString) (seg : JSString) :
    List JSString :=
  if seg = [] ∨ seg = [dot] then res
  else if seg = [dot, dot] then
    match res.getLast? with
    | none => if allowAboveRoot then [seg] else []
    | some last =>
      if last = [dot, dot] then (if allowAboveRoot then res ++ [seg] else res)
      else res.dropLast
  else res ++ [seg]

/-- The helper `normalizeString(path, allowAboveRoot, "/", isPosixPathSeparator)`. -/
def normalizeString (path : JSString) (allowAboveRoot : Bool) : JSString :=
  joinSlash ((splitSlash path).foldl (normalizeSegment allowAboveRoot) [])

/-- The function `path.normalize(path)`. -/
def pathNormalize (path : JSString) : JSString :=
  if path = [] then js "."
  else
    let isAbsolute : Bool := path.head? = some slash
    let trailingSeparator : Bool := path.getLast? = some slash
    let res := normalizeString path (!isAbsolute)
    if res = [] then
      if isAbsolute then js "/" else if trailingSeparator then js "./" else js "."
    else
      let res := if trailingSeparator then res ++ [slash] else res
      if isAbsolute then slash :: res else res

/-- The function `path.join(...args)`: the non-empty arguments joined with `/`, normalized. -/
def pathJoin (args : List JSString) : JSString :=
  match args.filter (fun arg => arg ≠ []) with
  | [] => js "."
  | parts => pathNormalize (joinSlash parts)

/-- The loop of `path.resolve`, over the arguments from the last one to the first one and then the
working directory: it stops at the first absolute path. -/
def resolveLoop : List JSString → JSString → Bool → JSString × Bool
  | [], resolvedPath, resolvedAbsolute => (resolvedPath, resolvedAbsolute)
  | path :: more, resolvedPath, resolvedAbsolute =>
    if resolvedAbsolute then (resolvedPath, resolvedAbsolute)
    else if path = [] then resolveLoop more resolvedPath resolvedAbsolute
    else resolveLoop more (path ++ slash :: resolvedPath) (path.head? = some slash)

/-- The function `path.resolve(...args)` in a process whose working directory is `cwd`. -/
def pathResolve (cwd : JSString) (args : List JSString) : JSString :=
  let loop := resolveLoop (args.reverse ++ [cwd]) [] false
  let res := normalizeString loop.1 (!loop.2)
  if loop.2 then slash :: res else if res ≠ [] then res else js "."

/-- The function `path.basename(path)`: what follows the last `/`, trailing separators apart. -/
def pathBasename (path : JSString) : JSString :=
  ((path.reverse.dropWhile (fun c => c = slash)).takeWhile (fun c => c ≠ slash)).reverse

/-! ## The Node.js runtime: `JSON` and `fs` -/

/-- The error codes of the system calls behind `fs.writeFileSync`. -/
inductive Errno where
  /-- A directory on the way to the file does not exist. -/
  | ENOENT
  /-- A name on the way to the file is not a directory. -/
  | ENOTDIR
  /-- The process may not search a directory on the way, or may not write the file, or may not
  create it in its directory. -/
  | EACCES
  /-- The path names a directory. -/
  | EISDIR
  /-- A name or the whole path is longer than the file system allows. -/
  | ENAMETOOLONG
  deriving DecidableEq

/-- The errors the runtime functions of the helper throw. -/
inductive JSError where
  /-- `JSON.stringify` threw (a cyclic structure, a `BigInt`, a throwing `toJSON`). -/
  | stringify
  /-- `fs.writeFileSync` refused a path that contains a null byte (`ERR_INVALID_ARG_VALUE`). -/
  | invalidArgValue
  /-- A system call of `fs.writeFileSync` failed with the given code. -/
  | system (code : Errno)
  deriving DecidableEq

/-- JavaScript values with a `JSON.stringify` result: it throws, or returns `undefined` (`none`),
or returns a string. -/
class JSONValue (α : Type) where
  stringify : α → Except JSError (Option JSString)

/-- Lower-case hexadecimal digit of a number below 16. -/
def hexDigit (n : Nat) : CodeUnit :=
  if n < 10 then codeUnit (48 + n) else codeUnit (87 + n)

/-- The abstract operation `UnicodeEscape`: a backslash, `u` and four lower-case hexadecimal digits. -/
def unicodeEscape (c : CodeUnit) : JSString :=
  [92, 117, hexDigit (c.val / 4096 % 16), hexDigit (c.val / 256 % 16), hexDigit (c.val / 16 % 16),
    hexDigit (c.val % 16)]

/-- A leading (high) surrogate code unit. -/
def isLeadSurrogate (c : CodeUnit) : Bool := 0xD800 ≤ c.val && c.val ≤ 0xDBFF

/-- A trailing (low) surrogate code unit. -/
def isTrailSurrogate (c : CodeUnit) : Bool := 0xDC00 ≤ c.val && c.val ≤ 0xDFFF

/-- What `QuoteJSONString` emits for a code unit that is not the first half of a surrogate pair:
the two-character escapes of its table, a `UnicodeEscape` for the other control characters and for
a surrogate that is not paired, the code unit itself otherwise. -/
def quoteUnit (c : CodeUnit) : JSString :=
  if c = 8 then [92, 98]
  else if c = 9 then [92, 116]
  else if c = 10 then [92, 110]
  else if c = 12 then [92, 102]
  else if c = 13 then [92, 114]
  else if c = 34 then [92, 34]
  else if c = 92 then [92, 92]
  else if c.val < 32 ∨ isLeadSurrogate c ∨ isTrailSurrogate c then unicodeEscape c
  else [c]

/-- The body of `QuoteJSONString`, over the code points of the string: a surrogate pair is copied,
every other code unit goes through `quoteUnit`. -/
def quoteUnits : JSString → JSString
  | [] => []
  | [c] => quoteUnit c
  | c :: d :: rest =>
    if isLeadSurrogate c && isTrailSurrogate d then c :: d :: quoteUnits rest
    else quoteUnit c ++ quoteUnits (d :: rest)

/-- The abstract operation `QuoteJSONString`. -/
def quoteJSONString (value : JSString) : JSString := 34 :: (quoteUnits value ++ [34])

/-- The value of `JSON.stringify(args)` for an array of strings: the quoted elements, separated by
commas, between brackets. -/
def jsonStringify (args : List JSString) : JSString :=
  91 :: (List.intercalate [44] (args.map quoteJSONString) ++ [93])

instance : JSONValue (List JSString) where
  stringify args := .ok (some (jsonStringify args))

/-- Where a reader of a JSON text that denotes an array of strings stands. `done` holds the
elements read so far and `cur` the part of the current string read so far. -/
inductive ParseState where
  /-- Before the opening bracket. -/
  | start
  /-- After the opening bracket: a string or the closing bracket follows. -/
  | opened
  /-- Inside a string. -/
  | inString (done : List JSString) (cur : JSString)
  /-- Inside a string, after a backslash. -/
  | escaped (done : List JSString) (cur : JSString)
  /-- Inside a string, after a backslash and `u`, with `count` hexadecimal digits of value `acc`
  read. -/
  | hex (done : List JSString) (cur : JSString) (count : Nat) (acc : Nat)
  /-- After an element: a comma or the closing bracket follows. -/
  | afterValue (done : List JSString)
  /-- After a comma: a string follows. -/
  | afterComma (done : List JSString)
  /-- After the closing bracket. -/
  | finished (done : List JSString)

/-- JSON white space: space, tab, line feed, carriage return. -/
def isJSONSpace (c : CodeUnit) : Bool := c = 32 || c = 9 || c = 10 || c = 13

/-- The value of a hexadecimal digit, in either case. -/
def hexValue (c : CodeUnit) : Option Nat :=
  if 48 ≤ c.val ∧ c.val ≤ 57 then some (c.val - 48)
  else if 97 ≤ c.val ∧ c.val ≤ 102 then some (c.val - 87)
  else if 65 ≤ c.val ∧ c.val ≤ 70 then some (c.val - 55)
  else none

/-- The character a two-character escape of the JSON grammar stands for. -/
def unescape (c : CodeUnit) : Option CodeUnit :=
  if c = 34 then some 34
  else if c = 92 then some 92
  else if c = 47 then some 47
  else if c = 98 then some 8
  else if c = 102 then some 12
  else if c = 110 then some 10
  else if c = 114 then some 13
  else if c = 116 then some 9
  else none

/-- One code unit of a JSON text read; `none` is a syntax error. -/
def parseStep : ParseState → CodeUnit → Option ParseState
  | .start, c =>
    if isJSONSpace c then some .start else if c = 91 then some .opened else none
  | .opened, c =>
    if isJSONSpace c then some .opened
    else if c = 93 then some (.finished [])
    else if c = 34 then some (.inString [] [])
    else none
  | .inString done cur, c =>
    if c = 34 then some (.afterValue (done ++ [cur]))
    else if c = 92 then some (.escaped done cur)
    else if c.val < 32 then none
    else some (.inString done (cur ++ [c]))
  | .escaped done cur, c =>
    if c = 117 then some (.hex done cur 0 0)
    else (unescape c).map (fun u => .inString done (cur ++ [u]))
  | .hex done cur count acc, c =>
    (hexValue c).map (fun v =>
      if count = 3 then .inString done (cur ++ [codeUnit (16 * acc + v)])
      else .hex done cur (count + 1) (16 * acc + v))
  | .afterValue done, c =>
    if isJSONSpace c then some (.afterValue done)
    else if c = 44 then some (.afterComma done)
    else if c = 93 then some (.finished done)
    else none
  | .afterComma done, c =>
    if isJSONSpace c then some (.afterComma done)
    else if c = 34 then some (.inString done [])
    else none
  | .finished done, c =>
    if isJSONSpace c then some (.finished done) else none

/-- The function `JSON.parse(text)` on the texts that denote an array of strings; `none` for every
other text. -/
def jsonParse (text : JSString) : Option (List JSString) :=
  match text.foldlM parseStep .start with
  | some (.finished done) => some done
  | _ => none

/-- The text that follows the literal `lit` at the start of `text`. -/
def dropLiteral : JSString → JSString → Option JSString
  | [], text => some text
  | _ :: _, [] => none
  | c :: lit, d :: text => if c = d then dropLiteral lit text else none

/-- The array of strings a module of the form `module.exports = <JSON>` exports when evaluated. -/
def evalModule (content : JSString) : Option (List JSString) :=
  (dropLiteral (js "module.exports = ") content).bind jsonParse

/-- A code unit that is one half of a surrogate pair. -/
def isSurrogate (c : CodeUnit) : Bool := isLeadSurrogate c || isTrailSurrogate c

/-- The code unit the UTF-8 encoder writes for a code unit that is not the first half of a
surrogate pair: U+FFFD for a surrogate, the code unit itself otherwise. -/
def replaceSurrogate (c : CodeUnit) : CodeUnit := if isSurrogate c then 0xFFFD else c

/-- The string the UTF-8 bytes of a JavaScript string stand for: a surrogate pair is kept, a
surrogate without its other half is replaced by U+FFFD. -/
def toWellFormed : JSString → JSString
  | [] => []
  | [c] => [replaceSurrogate c]
  | c :: d :: rest =>
    if isLeadSurrogate c && isTrailSurrogate d then c :: d :: toWellFormed rest
    else replaceSurrogate c :: toWellFormed (d :: rest)

/-- The number of UTF-8 bytes of a code unit that is not half of a surrogate pair. -/
def utf8UnitLength (c : CodeUnit) : Nat :=
  if c.val < 0x80 then 1 else if c.val < 0x800 then 2 else 3

/-- The number of bytes of the UTF-8 encoding of a JavaScript string. -/
def utf8Length : JSString → Nat
  | [] => 0
  | [c] => utf8UnitLength c
  | c :: d :: rest =>
    if isLeadSurrogate c && isTrailSurrogate d then 4 + utf8Length rest
    else utf8UnitLength c + utf8Length (d :: rest)

/-- The place of an entry in the directory tree: the names from the root down to it, each as its
UTF-8 bytes read back. The root directory is the empty list. -/
abbrev Location := List JSString

/-- An entry of the directory tree, with what the process may do with it: a directory (may the
process search it, may it create entries in it) or a regular file (its text, may the process
write it). -/
inductive Entry where
  | directory (search write : Bool)
  | file (content : JSString) (write : Bool)
  deriving DecidableEq

/-- A Linux file system as the process sees it: the entry at each location, the longest name
(`NAME_MAX`) and the longest path (`PATH_MAX`) in bytes. Names are compared byte by byte;
symbolic and hard links are left out, so that a file has one location. -/
structure FileSystem where
  entries : Location → Option Entry
  nameMax : Nat
  pathMax : Nat

/-- The file system with the entry at one location replaced. -/
def FileSystem.set (fs : FileSystem) (loc : Location) (entry : Entry) : FileSystem :=
  { fs with entries := fun l => if l = loc then some entry else fs.entries l }

/-- The check the path lookup makes on the directory it stands in. -/
def FileSystem.search (fs : FileSystem) (cur : Location) : Except Errno Unit :=
  match fs.entries cur with
  | none => .error .ENOENT
  | some (.file _ _) => .error .ENOTDIR
  | some (.directory search _) => if search then .ok () else .error .EACCES

/-- One component of a path looked up from the directory `cur`: an empty component and `.` stay
in `cur`, `..` goes to the parent, a name goes to the entry of that name (which the next step, or
the open, checks). -/
def FileSystem.step (fs : FileSystem) (cur : Location) (comp : JSString) :
    Except Errno Location :=
  match fs.search cur with
  | .error code => .error code
  | .ok _ =>
    if comp = [] ∨ comp = [dot] then .ok cur
    else if comp = [dot, dot] then .ok cur.dropLast
    else if fs.nameMax < utf8Length comp then .error .ENAMETOOLONG
    else .ok (cur ++ [toWellFormed comp])

/-- The path lookup: the components of a path, one after the other, from the directory `cur`. -/
def FileSystem.walk (fs : FileSystem) : Location → List JSString → Except Errno Location
  | cur, [] => .ok cur
  | cur, comp :: comps =>
    match fs.step cur comp with
    | .error code => .error code
    | .ok next => fs.walk next comps

/-- The system call `open` with the flags of `fs.writeFileSync` (write, create, truncate) followed
by the write of `data`: a directory is refused, a regular file is overwritten when the process
may write it, and a missing file is created when the process may write its directory. -/
def FileSystem.openWrite (fs : FileSystem) (loc : Location) (data : JSString) :
    Except Errno FileSystem :=
  match fs.entries loc with
  | some (.directory _ _) => .error .EISDIR
  | some (.file _ write) =>
    if write then .ok (fs.set loc (.file data write)) else .error .EACCES
  | none =>
    match fs.entries loc.dropLast with
    | some (.directory _ write) =>
      if write then .ok (fs.set loc (.file data true)) else .error .EACCES
    | _ => .error .ENOENT

/-- The function `fs.writeFileSync(file, data)` in a process whose working directory is `cwd`: a
path with a null byte is refused by Node.js itself; otherwise the path is looked up (from `cwd`
when it is relative) and the file is created or overwritten with the UTF-8 encoding of `data`, or
the error of the system call is thrown and nothing is written. -/
def writeFileSync (cwd file data : JSString) (fs : FileSystem) : Except JSError FileSystem :=
  if (0 : CodeUnit) ∈ file then .error .invalidArgValue
  else if file = [] then .error (.system .ENOENT)
  else if fs.pathMax ≤ utf8Length file then .error (.system .ENAMETOOLONG)
  else
    let full := if file.head? = some slash then file else cwd ++ slash :: file
    match fs.walk [] (splitSlash full) with
    | .error code => .error (.system code)
    | .ok loc =>
      match fs.openWrite loc (toWellFormed data) with
      | .error code => .error (.system code)
      | .ok fs1 => .ok fs1

/-! ## The helper `saveArguments` -/

/-- The values the second argument of `saveArguments` ranges over: `undefined` (the argument is
absent), `null`, a boolean or a string. -/
inductive JSValue where
  | undefined
  | null
  | boolean (b : Bool)
  | string (s : JSString)
  deriving DecidableEq

/-- The abstract operation `ToBoolean`. -/
def JSValue.truthy : JSValue → Bool
  | .undefined => false
  | .null => false
  | .boolean b => b
  | .string s => s ≠ []

/-- The abstract operation `ToString`, as a template literal applies it. -/
def JSValue.toStr : JSValue → JSString
  | .undefined => js "undefined"
  | .null => js "null"
  | .boolean b => if b then js "true" else js "false"
  | .string s => s

/-- What the script reads from its environment: `process.cwd()` and `__filename`. -/
structure Env where
  cwd : JSString
  filename : JSString

/-- The constant `argsPath`. -/
def argsPath (env : Env) : JSString :=
  pathJoin [pathResolve env.cwd [js "./"], js "arguments"]

/-- The constant `pathFile` of `saveArguments`. -/
def pathFile (env : Env) (subfx : JSValue) : JSString :=
  pathJoin [argsPath env, if subfx.truthy then subfx.toStr ++ js ".js" else pathBasename env.filename]

/-- The value of the template literal of `saveArguments`, `module.exports = ` followed by what
`JSON.stringify(args)` returned, a string or `undefined` (`none`). -/
def moduleData (text : Option JSString) : JSString :=
  js "module.exports = " ++ JSValue.toStr
    (match text with
      | none => .undefined
      | some text => .string text)

/-- The function `saveArguments(args, subfx)`, on the file system `fs`. -/
def saveArguments {α : Type} [JSONValue α] (env : Env) (args : α) (subfx : JSValue)
    (fs : FileSystem) : Except JSError FileSystem := do
  let pathFile := pathFile env subfx
  let data := moduleData (← JSONValue.stringify args)
  writeFileSync env.cwd pathFile data fs

/-- The absolute path with the given segments. -/
def absolutePath (segs : List JSString) : JSString := slash :: joinSlash segs

/-- A name a directory entry can have: not empty, without `/` and without a null byte, and
neither `.` nor `..`. -/
def isEntryName (name : JSString) : Prop :=
  name ≠ [] ∧ slash ∉ name ∧ (0 : CodeUnit) ∉ name ∧ name ≠ [dot] ∧ name ≠ [dot, dot]

/-- A plain file name: not empty and without a path separator. -/
def isPlainFileName (name : JSString) : Prop :=
  name ≠ [] ∧ slash ∉ name

instance (name : JSString) : Decidable (isEntryName name) := by
  unfold isEntryName; infer_instance

instance (name : JSString) : Decidable (isPlainFileName name) := by
  unfold isPlainFileName; infer_instance

/-- The location of the entry with the given names, from the root down. -/
def locate (names : List JSString) : Location := names.map toWellFormed

/-- Whether the entry at a location is a directory the process may search. -/
def FileSystem.isSearchable (fs : FileSystem) (loc : Location) : Bool :=
  match fs.entries loc with
  | some (.directory search _) => search
  | _ => false

/-- Whether the process may create or overwrite the regular file at a location: the location is
free and its directory is one the process may write, or it holds a regular file the process may
write. -/
def FileSystem.isWritable (fs : FileSystem) (loc : Location) : Bool :=
  match fs.entries loc with
  | some (.directory _ _) => false
  | some (.file _ write) => write
  | none =>
    match fs.entries loc.dropLast with
    | some (.directory _ write) => write
    | _ => false

/-- The file system lets the process write the file `name` of the directory with the names `dir`:
every directory from the root down to that directory exists and may be searched, the names and
the path fit the limits of the file system, and the file may be created or overwritten. -/
def FileSystem.admits (fs : FileSystem) (dir : List JSString) (name : JSString) : Prop :=
  (∀ n ≤ dir.length, fs.isSearchable ((locate dir).take n) = true)
    ∧ (∀ d ∈ dir ++ [name], utf8Length d ≤ fs.nameMax)
    ∧ utf8Length (absolutePath (dir ++ [name])) < fs.pathMax
    ∧ fs.isWritable (locate (dir ++ [name])) = true

instance (fs : FileSystem) (dir : List JSString) (name : JSString) :
    Decidable (fs.admits dir name) := by
  unfold FileSystem.admits; infer_instance

/-- Whether a toolkit call is a `deploy` on the factory of the given contract. -/
def ToolkitCall.isDeployOn (contract : JSString) : ToolkitCall → Bool
  | .deploy c _ => c = contract
  | _ => false

/-! ## Instances for the examples -/

/-- A toolkit for the examples. Its state counts the calls made so far and the call with number
`failAt`, when there is one, rejects with the value `rejected`. A factory is the contract name it
was requested by, a handle is the name of its factory, and the address of a handle is `0x`
followed by that name. -/
def scriptedToolkit (failAt : Option Nat) : Toolkit Nat JSString JSString JSString where
  getContractFactory name n :=
    if failAt = some n then (.error (js "rejected"), n + 1) else (.ok name, n + 1)
  deploy factory _ n :=
    if failAt = some n then (.error (js "rejected"), n + 1) else (.ok factory, n + 1)
  deployed _ n :=
    if failAt = some n then (.error (js "rejected"), n + 1) else (.ok (), n + 1)
  address handle := js "0x" ++ handle

/-- An environment for the examples: the script `scripts/deploy.js` of a project in
`/home/dev/market`, run from the root of the project. -/
def sampleEnv : Env :=
  { cwd := absolutePath [js "home", js "dev", js "market"]
    filename := absolutePath [js "home", js "dev", js "market", js "scripts"] ++ js "/deploy.js" }

/-- The directories of the example project, `arguments` apart. -/
def projectDirectories : List Location :=
  [[], [js "home"], [js "home", js "dev"], [js "home", js "dev", js "market"],
    [js "home", js "dev", js "market", js "scripts"]]

/-- A file system for the examples: the directories of the project, with the given entry (or
none) as its directory `arguments` and the given entry (or none) as `arguments/erc721.js`. Names
are limited to 255 bytes and paths to 4096 bytes. -/
def projectFiles (arguments file : Option Entry) : FileSystem where
  entries loc :=
    if loc ∈ projectDirectories then some (.directory true true)
    else if loc = [js "home", js "dev", js "market", js "arguments"] then arguments
    else if loc = [js "home", js "dev", js "market", js "arguments", js "erc721.js"] then file
    else none
  nameMax := 255
  pathMax := 4096

/-- A file system for the examples, in which the directory `arguments` of the project exists and
`arguments/erc721.js` already holds something. -/
def sampleFiles : FileSystem :=
  projectFiles (some (.directory true true)) (some (.file (js "module.exports = []") true))

/-- A file system for the examples in which the project has no directory `arguments`. -/
def bareFiles : FileSystem := projectFiles none none

/-- A request as the toolkit received it, with the answer the toolkit gave. -/
inductive Received (F H E : Type) where
  | getContractFactory (name : JSString) (answer : Except E F)
  | deploy (factory : F) (args : List JSString) (answer : Except E H)
  | deployed (handle : H) (answer : Except E Unit)

/-- The toolkit `hre` with a recorder on its side of the interface: it answers as `hre` does and
appends every request it receives, with the answer, to a list kept in its state. -/
def recording {σ F H E : Type} (hre : Toolkit σ F H E) :
    Toolkit (σ × List (Received F H E)) F H E where
  getContractFactory name s :=
    ((hre.getContractFactory name s.1).1,
      ((hre.getContractFactory name s.1).2,
        s.2 ++ [.getContractFactory name (hre.getContractFactory name s.1).1]))
  deploy factory args s :=
    ((hre.deploy factory args s.1).1,
      ((hre.deploy factory args s.1).2, s.2 ++ [.deploy factory args (hre.deploy factory args s.1).1]))
  deployed handle s :=
    ((hre.deployed handle s.1).1,
      ((hre.deployed handle s.1).2, s.2 ++ [.deployed handle (hre.deployed handle s.1).1]))
  address := hre.address

/-! ## Runs of the script -/

/-- Every run of the script is one of seven: one of the six toolkit calls, in the order of the
source, rejects and nothing follows it, or all six resolve. -/
theorem script_cases {σ F H E : Type} (hre : Toolkit σ F H E) (s : σ) :
    (∃ e, (script hre s).calls = [⟨.getContractFactory (js "MarketPlace"), some e⟩]
      ∧ (script hre s).stderr = [e] ∧ (script hre s).exitCode = some 1)
    ∨ (∃ e, (script hre s).calls = [⟨.getContractFactory (js "MarketPlace"), none⟩,
          ⟨.deploy (js "MarketPlace") [], some e⟩]
      ∧ (script hre s).stderr = [e] ∧ (script hre s).exitCode = some 1)
    ∨ (∃ e, (script hre s).calls = [⟨.getContractFactory (js "MarketPlace"), none⟩,
          ⟨.deploy (js "MarketPlace") [], none⟩, ⟨.deployed (js "MarketPlace"), some e⟩]
      ∧ (script hre s).stderr = [e] ∧ (script hre s).exitCode = some 1)
    ∨ (∃ e, (script hre s).calls = [⟨.getContractFactory (js "MarketPlace"), none⟩,
          ⟨.deploy (js "MarketPlace") [], none⟩, ⟨.deployed (js "MarketPlace"), none⟩,
          ⟨.getContractFactory (js "ERC721Royalty"), some e⟩]
      ∧ (script hre s).stderr = [e] ∧ (script hre s).exitCode = some 1)
    ∨ (∃ e, (script hre s).calls = [⟨.getContractFactory (js "MarketPlace"), none⟩,
          ⟨.deploy (js "MarketPlace") [], none⟩, ⟨.deployed (js "MarketPlace"), none⟩,
          ⟨.getContractFactory (js "ERC721Royalty"), none⟩,
          ⟨.deploy (js "ERC721Royalty") [js "MarketCollection", js "MKC"], some e⟩]
      ∧ (script hre s).stderr = [e] ∧ (script hre s).exitCode = some 1)
    ∨ (∃ e, (script hre s).calls = [⟨.getContractFactory (js "MarketPlace"), none⟩,
          ⟨.deploy (js "MarketPlace") [], none⟩, ⟨.deployed (js "MarketPlace"), none⟩,
          ⟨.getContractFactory (js "ERC721Royalty"), none⟩,
          ⟨.deploy (js "ERC721Royalty") [js "MarketCollection", js "MKC"], none⟩,
          ⟨.deployed (js "ERC721Royalty"), some e⟩]
      ∧ (script hre s).stderr = [e] ∧ (script hre s).exitCode = some 1)
    ∨ ((script hre s).calls = [⟨.getContractFactory (js "MarketPlace"), none⟩,
          ⟨.deploy (js "MarketPlace") [], none⟩, ⟨.deployed (js "MarketPlace"), none⟩,
          ⟨.getContractFactory (js "ERC721Royalty"), none⟩,
          ⟨.deploy (js "ERC721Royalty") [js "MarketCollection", js "MKC"], none⟩,
          ⟨.deployed (js "ERC721Royalty"), none⟩]
      ∧ (script hre s).stderr = [] ∧ (script hre s).exitCode = none) := by
  rcases h1 : hre.getContractFactory (js "MarketPlace") s with ⟨_ | f1, s1⟩
  · simp [script, main, bind, Async.bind, getContractFactory, deploy, deployed, await, consoleLog,
      consoleError, address, Process.start, h1]
  rcases h2 : hre.deploy f1 [] s1 with ⟨_ | m, s2⟩
  · simp [script, main, bind, Async.bind, getContractFactory, deploy, deployed, await, consoleLog,
      consoleError, address, Process.start, h1, h2]
  rcases h3 : hre.deployed m s2 with ⟨_ | _, s3⟩
  · simp [script, main, bind, Async.bind, getContractFactory, deploy, deployed, await, consoleLog,
      consoleError, address, Process.start, h1, h2, h3]
  rcases h4 : hre.getContractFactory (js "ERC721Royalty") s3 with ⟨_ | f2, s4⟩
  · simp [script, main, bind, Async.bind, getContractFactory, deploy, deployed, await, consoleLog,
      consoleError, address, Process.start, h1, h2, h3, h4]
  rcases h5 : hre.deploy f2 [js "MarketCollection", js "MKC"] s4 with ⟨_ | c, s5⟩
  · simp [script, main, bind, Async.bind, getContractFactory, deploy, deployed, await, consoleLog,
      consoleError, address, Process.start, h1, h2, h3, h4, h5]
  rcases h6 : hre.deployed c s5 with ⟨_ | _, s6⟩
  · simp [script, main, bind, Async.bind, getContractFactory, deploy, deployed, await, consoleLog,
      consoleError, address, Process.start, h1, h2, h3, h4, h5, h6]
  · simp [script, main, bind, Async.bind, getContractFactory, deploy, deployed, await, consoleLog,
      consoleError, address, Process.start, h1, h2, h3, h4, h5, h6]

theorem marketPlace_ne_erc721 : js "MarketPlace" ≠ js "ERC721Royalty" := by decide

/-- In a trace whose calls all resolved, the last one apart, nothing follows a rejected call. -/
theorem no_call_after_rejection {E : Type} (l : List (TraceEntry E)) (x : TraceEntry E)
    (hl : ∀ y ∈ l, y.rejection = none) :
    ∀ pre t post, l ++ [x] = pre ++ t :: post → t.rejection ≠ none → post = [] := by
  intro pre t post heq ht
  rcases List.append_eq_append_iff.1 heq with ⟨a, rfl, ha⟩ | ⟨c, rfl, hc⟩
  · rcases a with _ | ⟨b, a⟩
    · simp only [List.nil_append, List.cons.injEq] at ha; exact ha.2.symm
    · simp at ha
  · rcases c with _ | ⟨b, c⟩
    · simp only [List.nil_append, List.cons.injEq] at hc; exact hc.2
    · simp only [List.cons_append, List.cons.injEq] at hc
      exact absurd (hl t (by simp [← hc.1])) ht

/-- In a trace whose calls all resolved, the last one apart, nothing follows a rejected call. -/
theorem no_call_after_rejection_dropLast {E : Type} (l : List (TraceEntry E))
    (hl : ∀ y ∈ l.dropLast, y.rejection = none) :
    ∀ pre t post, l = pre ++ t :: post → t.rejection ≠ none → post = [] := by
  intro pre t post heq ht
  have hne : l ≠ [] := by rw [heq]; simp
  exact no_call_after_rejection l.dropLast (l.getLast hne) hl pre t post
    ((List.dropLast_append_getLast hne).trans heq) ht

/-- The entry at which a list is split, and what precedes it. -/
theorem split_at {α : Type} {l pre post : List α} {t : α} (h : l = pre ++ t :: post) :
    l[pre.length]? = some t ∧ l.take pre.length = pre := by
  subst h
  induction pre with
  | nil => simp
  | cons a pre ih => simpa using ih

/-- C1. When both factory lookups, both deploy calls and both confirmations resolve, with handles
of addresses `a1` and `a2`, standard output holds exactly the two lines `Market: a1` and
`ERC721: a2`, in that order, nothing is written to standard error and the exit status is 0. -/
theorem successful_run_output {σ F H E : Type} (hre : Toolkit σ F H E)
    (s0 s1 s2 s3 s4 s5 s6 : σ) (f1 f2 : F) (market erc721 : H)
    (h1 : hre.getContractFactory (js "MarketPlace") s0 = (.ok f1, s1))
    (h2 : hre.deploy f1 [] s1 = (.ok market, s2))
    (h3 : hre.deployed market s2 = (.ok (), s3))
    (h4 : hre.getContractFactory (js "ERC721Royalty") s3 = (.ok f2, s4))
    (h5 : hre.deploy f2 [js "MarketCollection", js "MKC"] s4 = (.ok erc721, s5))
    (h6 : hre.deployed erc721 s5 = (.ok (), s6)) :
    (script hre s0).stdout
        = [js "Market: " ++ hre.address market, js "ERC721: " ++ hre.address erc721]
      ∧ (script hre s0).stderr = []
      ∧ (script hre s0).exitStatus = 0 := by
  simp [script, main, bind, Async.bind, getContractFactory, deploy, deployed, await, consoleLog,
    address, Process.start, Process.exitStatus, h1, h2, h3, h4, h5, h6]

/-- The successful run of the example toolkit. -/
theorem successful_run_output_witness :
    (script (scriptedToolkit none) 0).stdout
        = [js "Market: " ++ (scriptedToolkit none).address (js "MarketPlace"),
            js "ERC721: " ++ (scriptedToolkit none).address (js "ERC721Royalty")]
      ∧ (script (scriptedToolkit none) 0).stderr = []
      ∧ (script (scriptedToolkit none) 0).exitStatus = 0 :=
  successful_run_output (scriptedToolkit none) 0 1 2 3 4 5 6 (js "MarketPlace")
    (js "ERC721Royalty") (js "MarketPlace") (js "ERC721Royalty") rfl rfl rfl rfl rfl rfl

/-- C2. When the first deployment rejects, at the lookup of the `MarketPlace` factory, at its
`deploy()` or at `deployed()`, the trace of toolkit calls holds no request for the
`ERC721Royalty` factory and no deploy call on it, standard output stays empty and the exit status
is 1. -/
theorem first_deployment_rejected {σ F H E : Type} (hre : Toolkit σ F H E) (s0 : σ)
    (h : (∃ e s1, hre.getContractFactory (js "MarketPlace") s0 = (.error e, s1))
      ∨ (∃ f1 s1 e s2, hre.getContractFactory (js "MarketPlace") s0 = (.ok f1, s1)
          ∧ hre.deploy f1 [] s1 = (.error e, s2))
      ∨ (∃ f1 s1 market s2 e s3, hre.getContractFactory (js "MarketPlace") s0 = (.ok f1, s1)
          ∧ hre.deploy f1 [] s1 = (.ok market, s2)
          ∧ hre.deployed market s2 = (.error e, s3))) :
    (∀ t ∈ (script hre s0).calls, t.call ≠ .getContractFactory (js "ERC721Royalty")
        ∧ ∀ args, t.call ≠ .deploy (js "ERC721Royalty") args)
      ∧ (script hre s0).stdout = []
      ∧ (script hre s0).exitStatus = 1 := by
  have hne := marketPlace_ne_erc721
  rcases h with ⟨e, s1, h1⟩ | ⟨f1, s1, e, s2, h1, h2⟩ | ⟨f1, s1, market, s2, e, s3, h1, h2, h3⟩
  · simp [script, main, bind, Async.bind, getContractFactory, deploy, deployed, await,
      consoleLog, consoleError, address, Process.start, Process.exitStatus, h1, hne]
  · simp [script, main, bind, Async.bind, getContractFactory, deploy, deployed, await,
      consoleLog, consoleError, address, Process.start, Process.exitStatus, h1, h2, hne]
  · simp [script, main, bind, Async.bind, getContractFactory, deploy, deployed, await,
      consoleLog, consoleError, address, Process.start, Process.exitStatus, h1, h2, h3, hne]

/-- The run of the example toolkit whose `Market.deploy()` rejects. -/
theorem first_deployment_rejected_witness :
    (∀ t ∈ (script (scriptedToolkit (some 1)) 0).calls,
        t.call ≠ .getContractFactory (js "ERC721Royalty")
        ∧ ∀ args, t.call ≠ .deploy (js "ERC721Royalty") args)
      ∧ (script (scriptedToolkit (some 1)) 0).stdout = []
      ∧ (script (scriptedToolkit (some 1)) 0).exitStatus = 1 :=
  first_deployment_rejected (scriptedToolkit (some 1)) 0
    (Or.inr (Or.inl ⟨js "MarketPlace", 1, js "rejected", 2, rfl, rfl⟩))

/-- C3. When the first deployment resolves with a handle of address `a1` and the second one
rejects, at the lookup of the `ERC721Royalty` factory, at its `deploy(...)` or at `deployed()`,
standard output is exactly the line `Market: a1`, no line that starts with `ERC721: ` is written,
the rejected call is the last toolkit call of the trace and the exit status is 1. -/
theorem second_deployment_rejected {σ F H E : Type} (hre : Toolkit σ F H E)
    (s0 s1 s2 s3 : σ) (f1 : F) (market : H)
    (h1 : hre.getContractFactory (js "MarketPlace") s0 = (.ok f1, s1))
    (h2 : hre.deploy f1 [] s1 = (.ok market, s2))
    (h3 : hre.deployed market s2 = (.ok (), s3))
    (h : (∃ e s4, hre.getContractFactory (js "ERC721Royalty") s3 = (.error e, s4))
      ∨ (∃ f2 s4 e s5, hre.getContractFactory (js "ERC721Royalty") s3 = (.ok f2, s4)
          ∧ hre.deploy f2 [js "MarketCollection", js "MKC"] s4 = (.error e, s5))
      ∨ (∃ f2 s4 erc721 s5 e s6, hre.getContractFactory (js "ERC721Royalty") s3 = (.ok f2, s4)
          ∧ hre.deploy f2 [js "MarketCollection", js "MKC"] s4 = (.ok erc721, s5)
          ∧ hre.deployed erc721 s5 = (.error e, s6))) :
    (script hre s0).stdout = [js "Market: " ++ hre.address market]
      ∧ (∀ line ∈ (script hre s0).stdout, ¬ js "ERC721: " <+: line)
      ∧ (∀ pre t post, (script hre s0).calls = pre ++ t :: post → t.rejection ≠ none → post = [])
      ∧ (script hre s0).exitStatus = 1 := by
  have hline : ¬ js "ERC721: " <+: js "Market: " ++ hre.address market := by
    have hE : (js "ERC721: ").head? = some 69 := by decide
    have hM : (js "Market: ").head? = some 77 := by decide
    rintro ⟨r, hr⟩
    have h0 := congrArg List.head? hr
    simp only [List.head?_append, hE, hM, Option.or] at h0
    revert h0
    decide
  rcases h with ⟨e, s4, h4⟩ | ⟨f2, s4, e, s5, h4, h5⟩
    | ⟨f2, s4, erc721, s5, e, s6, h4, h5, h6⟩
  · have hs : (script hre s0).stdout = [js "Market: " ++ hre.address market]
        ∧ (script hre s0).exitStatus = 1 ∧ ∃ l x, (script hre s0).calls = l ++ [x]
          ∧ ∀ y ∈ l, y.rejection = none := by
      refine ⟨?_, ?_, [⟨.getContractFactory (js "MarketPlace"), none⟩,
        ⟨.deploy (js "MarketPlace") [], none⟩, ⟨.deployed (js "MarketPlace"), none⟩], ?_⟩ <;>
      simp [script, main, bind, Async.bind, getContractFactory, deploy, deployed, await,
        consoleLog, consoleError, address, Process.start, Process.exitStatus, h1, h2, h3, h4]
    obtain ⟨hs1, hs2, l, x, hc, hl⟩ := hs
    refine ⟨hs1, ?_, ?_, hs2⟩
    · rw [hs1]; simpa using hline
    · rw [hc]; exact no_call_after_rejection l x hl
  · have hs : (script hre s0).stdout = [js "Market: " ++ hre.address market]
        ∧ (script hre s0).exitStatus = 1 ∧ ∃ l x, (script hre s0).calls = l ++ [x]
          ∧ ∀ y ∈ l, y.rejection = none := by
      refine ⟨?_, ?_, [⟨.getContractFactory (js "MarketPlace"), none⟩,
        ⟨.deploy (js "MarketPlace") [], none⟩, ⟨.deployed (js "MarketPlace"), none⟩,
        ⟨.getContractFactory (js "ERC721Royalty"), none⟩], ?_⟩ <;>
      simp [script, main, bind, Async.bind, getContractFactory, deploy, deployed, await,
        consoleLog, consoleError, address, Process.start, Process.exitStatus, h1, h2, h3, h4, h5]
    obtain ⟨hs1, hs2, l, x, hc, hl⟩ := hs
    refine ⟨hs1, ?_, ?_, hs2⟩
    · rw [hs1]; simpa using hline
    · rw [hc]; exact no_call_after_rejection l x hl
  · have hs : (script hre s0).stdout = [js "Market: " ++ hre.address market]
        ∧ (script hre s0).exitStatus = 1 ∧ ∃ l x, (script hre s0).calls = l ++ [x]
          ∧ ∀ y ∈ l, y.rejection = none := by
      refine ⟨?_, ?_, [⟨.getContractFactory (js "MarketPlace"), none⟩,
        ⟨.deploy (js "MarketPlace") [], none⟩, ⟨.deployed (js "MarketPlace"), none⟩,
        ⟨.getContractFactory (js "ERC721Royalty"), none⟩,
        ⟨.deploy (js "ERC721Royalty") [js "MarketCollection", js "MKC"], none⟩], ?_⟩ <;>
      simp [script, main, bind, Async.bind, getContractFactory, deploy, deployed, await,
        consoleLog, consoleError, address, Process.start, Process.exitStatus, h1, h2, h3, h4, h5,
        h6]
    obtain ⟨hs1, hs2, l, x, hc, hl⟩ := hs
    refine ⟨hs1, ?_, ?_, hs2⟩
    · rw [hs1]; simpa using hline
    · rw [hc]; exact no_call_after_rejection l x hl

/-- The run of the example toolkit whose `ERC721.deploy(...)` rejects. -/
theorem second_deployment_rejected_witness :
    (script (scriptedToolkit (some 4)) 0).stdout
        = [js "Market: " ++ (scriptedToolkit (some 4)).address (js "MarketPlace")]
      ∧ (∀ line ∈ (script (scriptedToolkit (some 4)) 0).stdout, ¬ js "ERC721: " <+: line)
      ∧ (∀ pre t post, (script (scriptedToolkit (some 4)) 0).calls = pre ++ t :: post →
          t.rejection ≠ none → post = [])
      ∧ (script (scriptedToolkit (some 4)) 0).exitStatus = 1 :=
  second_deployment_rejected (scriptedToolkit (some 4)) 0 1 2 3 (js "MarketPlace")
    (js "MarketPlace") rfl rfl rfl
    (Or.inr (Or.inl ⟨js "ERC721Royalty", 4, js "rejected", 5, rfl, rfl⟩))

/-- C4. In every run, whatever the toolkit does, a request for the `ERC721Royalty` factory or a
deploy call on it is preceded in the trace by the resolved `deployed()` of the `MarketPlace`
deployment. -/
theorem second_deployment_after_confirmation {σ F H E : Type} (hre : Toolkit σ F H E) (s0 : σ) :
    ∀ pre t post, (script hre s0).calls = pre ++ t :: post →
      (t.call = .getContractFactory (js "ERC721Royalty")
        ∨ ∃ args, t.call = .deploy (js "ERC721Royalty") args) →
      ∃ c ∈ pre, c.call = .deployed (js "MarketPlace") ∧ c.rejection = none := by
  have hne := marketPlace_ne_erc721
  intro pre t post heq ht
  rcases script_cases hre s0 with ⟨e, hc, -, -⟩ | ⟨e, hc, -, -⟩ | ⟨e, hc, -, -⟩ | ⟨e, hc, -, -⟩
    | ⟨e, hc, -, -⟩ | ⟨e, hc, -, -⟩ | ⟨hc, -, -⟩ <;>
  · rw [hc] at heq
    obtain ⟨hget, htake⟩ := split_at heq
    clear heq hc
    generalize pre.length = n at hget htake
    generalize js "MarketPlace" = mp at *
    generalize js "ERC721Royalty" = erc at *
    generalize js "MarketCollection" = a1 at *
    generalize js "MKC" = a2 at *
    subst htake
    rcases n with _ | _ | _ | _ | _ | _ | n <;>
      simp at hget <;> subst hget <;> simp_all

/-- C5. In every run, what the toolkit receives is recorded on the toolkit's side by `recording`.
The first request it receives is the factory named `MarketPlace`; the second, when there is one,
is a deploy on the factory it answered with, without constructor arguments; the third is
`deployed()` on the handle it answered with; the fourth is the factory named `ERC721Royalty`; the
fifth is a deploy on the factory it answered with, with exactly the arguments `MarketCollection`,
`MKC`; the sixth is `deployed()` on the handle it answered with. No request has another contract
name or other constructor arguments. The recorder changes nothing in the run, and the calls the
script lists are the same requests in the same positions. -/
theorem toolkit_arguments {σ F H E : Type} (hre : Toolkit σ F H E) (s0 : σ) :
    (∃ a, (script (recording hre) (s0, [])).chain.2.head?
        = some (.getContractFactory (js "MarketPlace") a))
      ∧ (∀ r, (script (recording hre) (s0, [])).chain.2[1]? = some r →
          ∃ f a, (script (recording hre) (s0, [])).chain.2.head?
              = some (.getContractFactory (js "MarketPlace") (.ok f))
            ∧ r = .deploy f [] a)
      ∧ (∀ r, (script (recording hre) (s0, [])).chain.2[2]? = some r →
          ∃ f h a, (script (recording hre) (s0, [])).chain.2[1]? = some (.deploy f [] (.ok h))
            ∧ r = .deployed h a)
      ∧ (∀ r, (script (recording hre) (s0, [])).chain.2[3]? = some r →
          ∃ a, r = .getContractFactory (js "ERC721Royalty") a)
      ∧ (∀ r, (script (recording hre) (s0, [])).chain.2[4]? = some r →
          ∃ f a, (script (recording hre) (s0, [])).chain.2[3]?
              = some (.getContractFactory (js "ERC721Royalty") (.ok f))
            ∧ r = .deploy f [js "MarketCollection", js "MKC"] a)
      ∧ (∀ r, (script (recording hre) (s0, [])).chain.2[5]? = some r →
          ∃ f h a, (script (recording hre) (s0, [])).chain.2[4]?
              = some (.deploy f [js "MarketCollection", js "MKC"] (.ok h))
            ∧ r = .deployed h a)
      ∧ (∀ r ∈ (script (recording hre) (s0, [])).chain.2,
          (∃ a, r = .getContractFactory (js "MarketPlace") a)
          ∨ (∃ a, r = .getContractFactory (js "ERC721Royalty") a)
          ∨ (∃ f a, r = .deploy f [] a)
          ∨ (∃ f a, r = .deploy f [js "MarketCollection", js "MKC"] a)
          ∨ ∃ h a, r = .deployed h a)
      ∧ (script (recording hre) (s0, [])).chain.2.length = (script hre s0).calls.length
      ∧ (script (recording hre) (s0, [])).chain.1 = (script hre s0).chain
      ∧ (script (recording hre) (s0, [])).calls = (script hre s0).calls
      ∧ (script (recording hre) (s0, [])).stdout = (script hre s0).stdout
      ∧ (script (recording hre) (s0, [])).stderr = (script hre s0).stderr
      ∧ (script (recording hre) (s0, [])).exitCode = (script hre s0).exitCode
      ∧ (∃ r, (script hre s0).calls.head? = some ⟨.getContractFactory (js "MarketPlace"), r⟩)
      ∧ (∀ t, (script hre s0).calls[1]? = some t → t.call = .deploy (js "MarketPlace") [])
      ∧ (∀ t, (script hre s0).calls[3]? = some t →
          t.call = .getContractFactory (js "ERC721Royalty"))
      ∧ (∀ t, (script hre s0).calls[4]? = some t →
          t.call = .deploy (js "ERC721Royalty") [js "MarketCollection", js "MKC"])
      ∧ (∀ t ∈ (script hre s0).calls,
          t.call = .getContractFactory (js "MarketPlace")
          ∨ t.call = .deploy (js "MarketPlace") []
          ∨ t.call = .deployed (js "MarketPlace")
          ∨ t.call = .getContractFactory (js "ERC721Royalty")
          ∨ t.call = .deploy (js "ERC721Royalty") [js "MarketCollection", js "MKC"]
          ∨ t.call = .deployed (js "ERC721Royalty")) := by
  rcases h1 : hre.getContractFactory (js "MarketPlace") s0 with ⟨_ | f1, s1⟩
  · simp [script, main, bind, Async.bind, getContractFactory, deploy, deployed, await,
      consoleLog, consoleError, address, Process.start, recording, h1]
  rcases h2 : hre.deploy f1 [] s1 with ⟨_ | m, s2⟩
  · simp [script, main, bind, Async.bind, getContractFactory, deploy, deployed, await,
      consoleLog, consoleError, address, Process.start, recording, h1, h2]
  rcases h3 : hre.deployed m s2 with ⟨_ | _, s3⟩
  · simp [script, main, bind, Async.bind, getContractFactory, deploy, deployed, await,
      consoleLog, consoleError, address, Process.start, recording, h1, h2, h3]
  rcases h4 : hre.getContractFactory (js "ERC721Royalty") s3 with ⟨_ | f2, s4⟩
  · simp [script, main, bind, Async.bind, getContractFactory, deploy, deployed, await,
      consoleLog, consoleError, address, Process.start, recording, h1, h2, h3, h4]
  rcases h5 : hre.deploy f2 [js "MarketCollection", js "MKC"] s4 with ⟨_ | c, s5⟩
  · simp [script, main, bind, Async.bind, getContractFactory, deploy, deployed, await,
      consoleLog, consoleError, address, Process.start, recording, h1, h2, h3, h4, h5]
  rcases h6 : hre.deployed c s5 with ⟨_ | _, s6⟩
  · simp [script, main, bind, Async.bind, getContractFactory, deploy, deployed, await,
      consoleLog, consoleError, address, Process.start, recording, h1, h2, h3, h4, h5, h6]
  · simp [script, main, bind, Async.bind, getContractFactory, deploy, deployed, await,
      consoleLog, consoleError, address, Process.start, recording, h1, h2, h3, h4, h5, h6]

/-- C6. In every run the exit status is 1 exactly when some toolkit call of the chain rejected,
and is 0 exactly when none did; when a call rejected with the value `e`, standard error holds
that value `e` and nothing else, and it holds nothing when no call rejected. -/
theorem exit_status_and_stderr {σ F H E : Type} (hre : Toolkit σ F H E) (s0 : σ) :
    ((script hre s0).exitStatus = 1 ↔ ∃ t ∈ (script hre s0).calls, t.rejection ≠ none)
      ∧ ((script hre s0).exitStatus = 0 ↔ ∀ t ∈ (script hre s0).calls, t.rejection = none)
      ∧ (∀ t ∈ (script hre s0).calls, ∀ e, t.rejection = some e → (script hre s0).stderr = [e])
      ∧ ((∀ t ∈ (script hre s0).calls, t.rejection = none) → (script hre s0).stderr = []) := by
  rcases script_cases hre s0 with ⟨e, hc, he, hx⟩ | ⟨e, hc, he, hx⟩ | ⟨e, hc, he, hx⟩
    | ⟨e, hc, he, hx⟩ | ⟨e, hc, he, hx⟩ | ⟨e, hc, he, hx⟩ | ⟨hc, he, hx⟩ <;>
  · rw [hc, he]
    simp [Process.exitStatus, hx]

/-- C9. In every run the trace holds at most one deploy call on the `MarketPlace` factory and at
most one on the `ERC721Royalty` factory, exactly one of each when the run succeeds, and no toolkit
call follows a rejected one. -/
theorem single_attempt {σ F H E : Type} (hre : Toolkit σ F H E) (s0 : σ) :
    ((script hre s0).calls.countP (fun t => t.call.isDeployOn (js "MarketPlace")) ≤ 1)
      ∧ ((script hre s0).calls.countP (fun t => t.call.isDeployOn (js "ERC721Royalty")) ≤ 1)
      ∧ ((script hre s0).exitStatus = 0 →
          (script hre s0).calls.countP (fun t => t.call.isDeployOn (js "MarketPlace")) = 1
          ∧ (script hre s0).calls.countP (fun t => t.call.isDeployOn (js "ERC721Royalty")) = 1)
      ∧ (∀ pre t post, (script hre s0).calls = pre ++ t :: post →
          t.rejection ≠ none → post = []) := by
  have hne := marketPlace_ne_erc721
  have hne2 := hne.symm
  rcases script_cases hre s0 with ⟨e, hc, he, hx⟩ | ⟨e, hc, he, hx⟩ | ⟨e, hc, he, hx⟩
    | ⟨e, hc, he, hx⟩ | ⟨e, hc, he, hx⟩ | ⟨e, hc, he, hx⟩ | ⟨hc, he, hx⟩ <;>
  · rw [hc]
    refine ⟨?_, ?_, ?_, ?_⟩
    · simp [List.countP_cons, ToolkitCall.isDeployOn, hne, hne2]
    · simp [List.countP_cons, ToolkitCall.isDeployOn, hne, hne2]
    · simp [Process.exitStatus, hx, List.countP_cons, ToolkitCall.isDeployOn, hne, hne2]
    · exact no_call_after_rejection_dropLast _ (by simp)

/-- The successful run of the example toolkit, split at the request for the second factory. -/
theorem second_deployment_after_confirmation_witness :
    ∃ c ∈ [(⟨.getContractFactory (js "MarketPlace"), none⟩ : TraceEntry JSString),
        ⟨.deploy (js "MarketPlace") [], none⟩, ⟨.deployed (js "MarketPlace"), none⟩],
      c.call = .deployed (js "MarketPlace") ∧ c.rejection = none :=
  second_deployment_after_confirmation (scriptedToolkit none) 0
    [⟨.getContractFactory (js "MarketPlace"), none⟩, ⟨.deploy (js "MarketPlace") [], none⟩,
      ⟨.deployed (js "MarketPlace"), none⟩]
    ⟨.getContractFactory (js "ERC721Royalty"), none⟩
    [⟨.deploy (js "ERC721Royalty") [js "MarketCollection", js "MKC"], none⟩,
      ⟨.deployed (js "ERC721Royalty"), none⟩]
    rfl (Or.inl rfl)

/-- The fifth request the example toolkit receives in the run whose `ERC721.deploy(...)` rejects:
a deploy on the factory it answered with, with the arguments `MarketCollection`, `MKC`. -/
theorem toolkit_arguments_witness :
    ∃ f a, (script (recording (scriptedToolkit (some 4))) (0, [])).chain.2[3]?
        = some (.getContractFactory (js "ERC721Royalty") (.ok f))
      ∧ (Received.deploy (js "ERC721Royalty") [js "MarketCollection", js "MKC"]
          (.error (js "rejected")) : Received JSString JSString JSString)
        = .deploy f [js "MarketCollection", js "MKC"] a :=
  (toolkit_arguments (scriptedToolkit (some 4)) 0).2.2.2.2.1 _ rfl

/-- The run of the example toolkit whose `Market.deploy()` rejects: status 1 and one value on standard error. -/
theorem exit_status_and_stderr_witness :
    (script (scriptedToolkit (some 1)) 0).exitStatus = 1
      ∧ (script (scriptedToolkit (some 1)) 0).stderr = [js "rejected"] :=
  have hm : (⟨.deploy (js "MarketPlace") [], some (js "rejected")⟩ : TraceEntry JSString)
      ∈ (script (scriptedToolkit (some 1)) 0).calls := List.Mem.tail _ (List.Mem.head _)
  ⟨(exit_status_and_stderr (scriptedToolkit (some 1)) 0).1.2 ⟨_, hm, by simp⟩,
    (exit_status_and_stderr (scriptedToolkit (some 1)) 0).2.2.1 _ hm _ rfl⟩

/-- The successful run of the example toolkit deploys each contract once. -/
theorem single_attempt_witness :
    (script (scriptedToolkit none) 0).calls.countP
        (fun t => t.call.isDeployOn (js "MarketPlace")) = 1
      ∧ (script (scriptedToolkit none) 0).calls.countP
        (fun t => t.call.isDeployOn (js "ERC721Royalty")) = 1 :=
  (single_attempt (scriptedToolkit none) 0).2.2.1 rfl

/-! ## Paths -/

theorem splitSlash_ne_nil (s : JSString) : splitSlash s ≠ [] := by
  induction s with
  | nil => simp [splitSlash]
  | cons c rest ih =>
    unfold splitSlash
    split
    · simp
    · split <;> simp

theorem splitSlash_append (a b : JSString) :
    splitSlash (a ++ slash :: b) = splitSlash a ++ splitSlash b := by
  induction a with
  | nil => simp [splitSlash]
  | cons c rest ih =>
    by_cases hc : c = slash
    · simp [splitSlash, hc, ih]
    · rcases hr : splitSlash rest with _ | ⟨seg, segs⟩
      · exact absurd hr (splitSlash_ne_nil rest)
      · simp [splitSlash, hc, ih, hr]

theorem splitSlash_of_not_mem {s : JSString} (h : slash ∉ s) : splitSlash s = [s] := by
  induction s with
  | nil => simp [splitSlash]
  | cons c rest ih =>
    simp only [List.mem_cons, not_or] at h
    have hc : c ≠ slash := fun e => h.1 e.symm
    simp [splitSlash, hc, ih h.2]

theorem joinSlash_cons_cons (x y : JSString) (l : List JSString) :
    joinSlash (x :: y :: l) = x ++ slash :: joinSlash (y :: l) := by
  simp [joinSlash, List.intercalate, List.intersperse]

theorem joinSlash_append_singleton (segs : List JSString) (x : JSString) :
    joinSlash (segs ++ [x]) = if segs = [] then x else joinSlash segs ++ slash :: x := by
  induction segs with
  | nil => simp [joinSlash, List.intercalate, List.intersperse]
  | cons d ds ih =>
    rcases ds with _ | ⟨d2, ds⟩
    · simp [joinSlash, List.intercalate, List.intersperse]
    · have h := joinSlash_cons_cons d d2 (ds ++ [x])
      simp only [List.cons_append] at h ih ⊢
      rw [h, ih, joinSlash_cons_cons]
      simp

/-- A segment that `normalizeString` keeps as it is. -/
theorem normalizeSegment_keep (b : Bool) (res : List JSString) {x : JSString}
    (h1 : x ≠ []) (h2 : x ≠ [dot]) (h3 : x ≠ [dot, dot]) :
    normalizeSegment b res x = res ++ [x] := by
  simp [normalizeSegment, h1, h2, h3]

theorem foldl_normalizeSegment_names (b : Bool) (dirs : List JSString)
    (hdirs : ∀ d ∈ dirs, isEntryName d) (res : List JSString) :
    (splitSlash (joinSlash dirs)).foldl (normalizeSegment b) res = res ++ dirs := by
  induction dirs generalizing res with
  | nil => simp [joinSlash, List.intercalate, List.intersperse, splitSlash, normalizeSegment]
  | cons d ds ih =>
    have hd : isEntryName d := hdirs d (List.mem_cons_self _ _)
    have hds : ∀ x ∈ ds, isEntryName x := fun x hx => hdirs x (List.mem_cons_of_mem _ hx)
    rcases ds with _ | ⟨d2, ds⟩
    · have : joinSlash [d] = d := by simp [joinSlash, List.intercalate, List.intersperse]
      rw [this, splitSlash_of_not_mem hd.2.1]
      simp [normalizeSegment_keep b res hd.1 hd.2.2.2.1 hd.2.2.2.2]
    · rw [joinSlash_cons_cons, splitSlash_append, splitSlash_of_not_mem hd.2.1]
      simp only [List.singleton_append, List.foldl_cons]
      rw [normalizeSegment_keep b res hd.1 hd.2.2.2.1 hd.2.2.2.2, ih hds]
      simp

theorem normalizeString_absolute (dirs : List JSString) (hdirs : ∀ d ∈ dirs, isEntryName d)
    {x : JSString} (h0 : slash ∉ x) (h1 : x ≠ []) (h2 : x ≠ [dot]) (h3 : x ≠ [dot, dot]) :
    normalizeString (absolutePath dirs ++ slash :: x) false = joinSlash (dirs ++ [x]) := by
  unfold normalizeString absolutePath
  rw [List.cons_append, show slash :: (joinSlash dirs ++ slash :: x)
    = [] ++ slash :: (joinSlash dirs ++ slash :: x) from rfl, splitSlash_append, splitSlash_append,
    splitSlash_of_not_mem h0]
  simp only [List.foldl_append, List.foldl_cons, List.foldl_nil]
  rw [show splitSlash [] = [[]] from rfl]
  simp only [List.foldl_cons, List.foldl_nil]
  rw [show normalizeSegment false [] [] = [] by simp [normalizeSegment],
    foldl_normalizeSegment_names false dirs hdirs, normalizeSegment_keep _ _ h1 h2 h3]
  simp

theorem joinSlash_append_singleton_ne_nil (segs : List JSString) {x : JSString} (h : x ≠ []) :
    joinSlash (segs ++ [x]) ≠ [] := by
  rw [joinSlash_append_singleton]
  split <;> simp [h]

theorem getLast?_ne_slash {a x : JSString} (h0 : slash ∉ x) (h1 : x ≠ []) :
    (a ++ x).getLast? ≠ some slash := by
  intro h
  rw [List.getLast?_append_of_ne_nil _ h1] at h
  exact h0 (List.mem_of_getLast?_eq_some h)

/-- Joining a name to an absolute path of names appends one segment. -/
theorem pathJoin_absolutePath (dirs : List JSString) (hdirs : ∀ d ∈ dirs, isEntryName d)
    {x : JSString} (h0 : slash ∉ x) (h1 : x ≠ []) (h2 : x ≠ [dot]) (h3 : x ≠ [dot, dot]) :
    pathJoin [absolutePath dirs, x] = absolutePath (dirs ++ [x]) := by
  have hA : absolutePath dirs ≠ [] := by simp [absolutePath]
  have hj : joinSlash [absolutePath dirs, x] = absolutePath dirs ++ slash :: x := by
    simp [joinSlash, List.intercalate, List.intersperse]
  have hne : absolutePath dirs ++ slash :: x ≠ [] := by simp [absolutePath]
  have hhead : (absolutePath dirs ++ slash :: x).head? = some slash := by simp [absolutePath]
  have hlast : (absolutePath dirs ++ slash :: x).getLast? ≠ some slash := by
    rw [show absolutePath dirs ++ slash :: x = (absolutePath dirs ++ [slash]) ++ x by simp]
    exact getLast?_ne_slash h0 h1
  have hn := normalizeString_absolute dirs hdirs h0 h1 h2 h3
  have hnn := joinSlash_append_singleton_ne_nil dirs h1
  simp only [pathJoin, List.filter, hA, h1, ne_eq, not_false_eq_true, decide_True, hj]
  have hlast2 : (slash :: x).getLast? ≠ some slash := getLast?_ne_slash (a := [slash]) h0 h1
  simp [pathNormalize, hne, hhead, hlast, hlast2, hn, hnn]
  rfl

theorem js_dotSlash : js "./" = [dot, slash] := by decide

theorem js_arguments_name : isEntryName (js "arguments") := by decide

theorem js_dotJs : js ".js" = [dot, 106, 115] := by decide

theorem pathResolve_cwd (dirs : List JSString) (hdirs : ∀ d ∈ dirs, isEntryName d) :
    pathResolve (absolutePath dirs) [js "./"] = absolutePath dirs := by
  have hloop : resolveLoop ([js "./"].reverse ++ [absolutePath dirs]) [] false
      = (absolutePath dirs ++ slash :: [dot, slash, slash], true) := by
    simp [resolveLoop, js_dotSlash, absolutePath, dot, slash]
  have hsplit : splitSlash (absolutePath dirs ++ slash :: [dot, slash, slash])
      = [[]] ++ splitSlash (joinSlash dirs) ++ [[dot], [], []] := by
    unfold absolutePath
    rw [List.cons_append, show slash :: (joinSlash dirs ++ slash :: [dot, slash, slash])
      = [] ++ slash :: (joinSlash dirs ++ slash :: [dot, slash, slash]) from rfl,
      splitSlash_append, splitSlash_append]
    have : splitSlash [dot, slash, slash] = [[dot], [], []] := by decide
    rw [this]
    simp [splitSlash]
  unfold pathResolve
  simp only [hloop, normalizeString, hsplit, List.foldl_append, List.foldl_cons, List.foldl_nil]
  rw [show normalizeSegment (!true) [] [] = [] by simp [normalizeSegment],
    foldl_normalizeSegment_names _ dirs hdirs]
  simp [normalizeSegment, absolutePath]

/-- The constant `argsPath` is the directory `arguments` of the working directory. -/
theorem argsPath_eq (env : Env) (dirs : List JSString) (hcwd : env.cwd = absolutePath dirs)
    (hdirs : ∀ d ∈ dirs, isEntryName d) :
    argsPath env = absolutePath (dirs ++ [js "arguments"]) := by
  have h := js_arguments_name
  unfold argsPath
  rw [hcwd, pathResolve_cwd dirs hdirs]
  exact pathJoin_absolutePath dirs hdirs h.2.1 h.1 h.2.2.2.1 h.2.2.2.2

theorem pathJoin_argsPath (env : Env) (dirs : List JSString) (hcwd : env.cwd = absolutePath dirs)
    (hdirs : ∀ d ∈ dirs, isEntryName d) {x : JSString}
    (h0 : slash ∉ x) (h1 : x ≠ []) (h2 : x ≠ [dot]) (h3 : x ≠ [dot, dot]) :
    pathJoin [argsPath env, x] = absolutePath (dirs ++ [js "arguments", x]) := by
  have hdirs2 : ∀ d ∈ dirs ++ [js "arguments"], isEntryName d := by
    intro d hd
    rcases List.mem_append.1 hd with hd | hd
    · exact hdirs d hd
    · rw [List.mem_singleton.1 hd]; exact js_arguments_name
  rw [argsPath_eq env dirs hcwd hdirs, pathJoin_absolutePath _ hdirs2 h0 h1 h2 h3]
  simp

theorem takeWhile_append_stop {α : Type} (p : α → Bool) (a : List α) (b : α) (c : List α)
    (ha : ∀ x ∈ a, p x = true) (hb : p b = false) : (a ++ b :: c).takeWhile p = a := by
  induction a with
  | nil => simp [List.takeWhile, hb]
  | cons x xs ih =>
    have hx := ha x (List.mem_cons_self _ _)
    simp [List.takeWhile, hx, ih (fun y hy => ha y (List.mem_cons_of_mem _ hy))]

/-- The base name of a path that ends in `/name`. -/
theorem pathBasename_append (dir : JSString) {name : JSString} (h0 : slash ∉ name)
    (h1 : name ≠ []) : pathBasename (dir ++ slash :: name) = name := by
  unfold pathBasename
  have hrev : (dir ++ slash :: name).reverse = name.reverse ++ slash :: dir.reverse := by simp
  rw [hrev]
  have hmem : ∀ x ∈ name.reverse, x ≠ slash := by
    intro x hx e
    exact h0 (e ▸ List.mem_reverse.1 hx)
  have hdrop : (name.reverse ++ slash :: dir.reverse).dropWhile (fun c => decide (c = slash))
      = name.reverse ++ slash :: dir.reverse := by
    rcases hr : name.reverse with _ | ⟨c, r⟩
    · exact absurd (List.reverse_eq_nil_iff.1 hr) h1
    · have hc : c ≠ slash := hmem c (by simp [hr])
      simp [List.dropWhile, hc]
  rw [hdrop, takeWhile_append_stop _ _ _ _ (by simpa using hmem) (by simp)]
  simp

theorem not_mem_joinSlash {c : CodeUnit} (hc : c ≠ slash) (segs : List JSString)
    (h : ∀ s ∈ segs, c ∉ s) : c ∉ joinSlash segs := by
  induction segs with
  | nil => simp [joinSlash, List.intercalate, List.intersperse]
  | cons d ds ih =>
    have hd := h d (List.mem_cons_self _ _)
    have hds : ∀ s ∈ ds, c ∉ s := fun s hs => h s (List.mem_cons_of_mem _ hs)
    rcases ds with _ | ⟨d2, ds⟩
    · simpa [joinSlash, List.intercalate, List.intersperse] using hd
    · rw [joinSlash_cons_cons]
      simp only [List.mem_append, List.mem_cons, not_or]
      exact ⟨hd, hc, ih hds⟩

theorem not_mem_absolutePath {c : CodeUnit} (hc : c ≠ slash) (segs : List JSString)
    (h : ∀ s ∈ segs, c ∉ s) : c ∉ absolutePath segs := by
  unfold absolutePath
  simp only [List.mem_cons, not_or]
  exact ⟨hc, not_mem_joinSlash hc segs h⟩

/-- The path of a file of the `arguments` directory has no null byte. -/
theorem zero_not_mem_target (dirs : List JSString) (hdirs : ∀ d ∈ dirs, isEntryName d)
    {x : JSString} (hx : (0 : CodeUnit) ∉ x) :
    (0 : CodeUnit) ∉ absolutePath (dirs ++ [js "arguments", x]) := by
  apply not_mem_absolutePath (by decide)
  intro s hs
  rcases List.mem_append.1 hs with hs | hs
  · exact (hdirs s hs).2.2.1
  · simp only [List.mem_cons, List.mem_singleton, List.not_mem_nil, or_false] at hs
    rcases hs with rfl | rfl
    · exact js_arguments_name.2.2.1
    · exact hx

/-- The name `<suffix>.js` of a plain file name is a name `path.join` keeps as one segment. -/
theorem suffix_name_kept {s : JSString} (hs : isPlainFileName s) :
    slash ∉ s ++ js ".js" ∧ s ++ js ".js" ≠ [] ∧ s ++ js ".js" ≠ [dot]
      ∧ s ++ js ".js" ≠ [dot, dot] := by
  obtain ⟨-, h2⟩ := hs
  rw [js_dotJs]
  refine ⟨?_, ?_, ?_, ?_⟩
  · simp only [List.mem_append, not_or]; exact ⟨h2, by decide⟩
  · simp
  · intro h
    have := congrArg List.length h
    simp at this
  · intro h
    have := congrArg List.length h
    simp at this

/-- The name `<suffix>.js` of a plain file name without a null byte is the name of an entry. -/
theorem suffix_name_entry {s : JSString} (hs : isPlainFileName s) (hnul : (0 : CodeUnit) ∉ s) :
    isEntryName (s ++ js ".js") := by
  obtain ⟨k0, k1, k2, k3⟩ := suffix_name_kept hs
  refine ⟨k1, k0, ?_, k2, k3⟩
  rw [js_dotJs]
  simp only [List.mem_append, not_or]
  exact ⟨hnul, by decide⟩

/-! ## JSON -/

theorem hexValue_hexDigit : ∀ n, n < 16 → hexValue (hexDigit n) = some n := by decide

theorem codeUnit_val (c : CodeUnit) : codeUnit c.val = c := by
  apply Fin.ext
  simp [codeUnit, Nat.mod_eq_of_lt c.isLt]

theorem codeUnit_hex (c : CodeUnit) :
    codeUnit (16 * (16 * (16 * (16 * 0 + c.val / 4096 % 16) + c.val / 256 % 16)
      + c.val / 16 % 16) + c.val % 16) = c := by
  have h : 16 * (16 * (16 * (16 * 0 + c.val / 4096 % 16) + c.val / 256 % 16)
      + c.val / 16 % 16) + c.val % 16 = c.val := by
    have := c.isLt
    omega
  rw [h, codeUnit_val]

theorem parseStep_hex (done : List JSString) (cur : JSString) (count acc n : Nat) (h : n < 16)
    (hc : count ≠ 3) :
    parseStep (.hex done cur count acc) (hexDigit n)
      = some (.hex done cur (count + 1) (16 * acc + n)) := by
  simp [parseStep, hexValue_hexDigit n h, hc]

theorem parseStep_hex_last (done : List JSString) (cur : JSString) (acc n : Nat) (h : n < 16) :
    parseStep (.hex done cur 3 acc) (hexDigit n)
      = some (.inString done (cur ++ [codeUnit (16 * acc + n)])) := by
  simp [parseStep, hexValue_hexDigit n h]

/-- Reading a `UnicodeEscape` inside a string gives back the code unit. -/
theorem parse_unicodeEscape (done : List JSString) (cur : JSString) (c : CodeUnit)
    (rest : JSString) :
    (unicodeEscape c ++ rest).foldlM parseStep (.inString done cur)
      = rest.foldlM parseStep (.inString done (cur ++ [c])) := by
  have e1 : parseStep (.inString done cur) 92 = some (.escaped done cur) := by
    simp [parseStep]
  have e2 : parseStep (.escaped done cur) 117 = some (.hex done cur 0 0) := by
    simp [parseStep]
  simp only [unicodeEscape, List.cons_append, List.nil_append, List.foldlM_cons, e1, e2,
    Option.bind_eq_bind, Option.some_bind]
  rw [parseStep_hex _ _ _ _ _ (Nat.mod_lt _ (by decide)) (by decide)]
  simp only [Option.some_bind]
  rw [parseStep_hex _ _ _ _ _ (Nat.mod_lt _ (by decide)) (by decide)]
  simp only [Option.some_bind]
  rw [parseStep_hex _ _ _ _ _ (Nat.mod_lt _ (by decide)) (by decide)]
  simp only [Option.some_bind]
  rw [parseStep_hex_last _ _ _ _ (Nat.mod_lt _ (by decide))]
  simp only [Option.some_bind]
  rw [codeUnit_hex]

/-- A code unit that stands for itself inside a JSON string. -/
theorem parseStep_literal (done : List JSString) (cur : JSString) {c : CodeUnit}
    (h1 : c ≠ 34) (h2 : c ≠ 92) (h3 : ¬ c.val < 32) :
    parseStep (.inString done cur) c = some (.inString done (cur ++ [c])) := by
  simp [parseStep, h1, h2, h3]

/-- Reading what `quoteUnit` emitted gives back the code unit. -/
theorem parse_quoteUnit (done : List JSString) (cur : JSString) (c : CodeUnit)
    (rest : JSString) :
    (quoteUnit c ++ rest).foldlM parseStep (.inString done cur)
      = rest.foldlM parseStep (.inString done (cur ++ [c])) := by
  unfold quoteUnit
  split
  · next h => subst h; simp [parseStep, unescape]
  split
  · next h => subst h; simp [parseStep, unescape]
  split
  · next h => subst h; simp [parseStep, unescape]
  split
  · next h => subst h; simp [parseStep, unescape]
  split
  · next h => subst h; simp [parseStep, unescape]
  split
  · next h => subst h; simp [parseStep, unescape]
  split
  · next h => subst h; simp [parseStep, unescape]
  split
  · exact parse_unicodeEscape done cur c rest
  · next h1 h2 h3 h4 h5 h6 h7 h8 =>
    simp only [not_or] at h8
    simp [parseStep_literal done cur h6 h7 h8.1]

theorem surrogate_literal {c : CodeUnit} (h : isLeadSurrogate c = true ∨ isTrailSurrogate c = true) :
    c ≠ 34 ∧ c ≠ 92 ∧ ¬ c.val < 32 := by
  have hv : 0xD800 ≤ c.val := by
    rcases h with h | h <;> simp [isLeadSurrogate, isTrailSurrogate] at h <;> omega
  refine ⟨?_, ?_, ?_⟩
  · intro e; rw [e] at hv; revert hv; decide
  · intro e; rw [e] at hv; revert hv; decide
  · omega

/-- Reading the body `QuoteJSONString` emitted gives back the string. -/
theorem parse_quoteUnits (s : JSString) : ∀ (done : List JSString) (cur rest : JSString),
    (quoteUnits s ++ rest).foldlM parseStep (.inString done cur)
      = rest.foldlM parseStep (.inString done (cur ++ s)) := by
  induction s using quoteUnits.induct with
  | case1 => intro done cur rest; simp [quoteUnits]
  | case2 c =>
    intro done cur rest
    simp only [quoteUnits]
    exact parse_quoteUnit done cur c rest
  | case3 c d rest0 h ih =>
    intro done cur rest
    simp only [Bool.and_eq_true] at h
    obtain ⟨c1, c2, c3⟩ := surrogate_literal (Or.inl h.1)
    obtain ⟨d1, d2, d3⟩ := surrogate_literal (Or.inr h.2)
    simp only [quoteUnits, h.1, h.2, Bool.and_self, if_true, List.cons_append, List.foldlM_cons,
      parseStep_literal done cur c1 c2 c3, parseStep_literal done (cur ++ [c]) d1 d2 d3,
      Option.bind_eq_bind, Option.some_bind, ih]
    simp
  | case4 c d rest0 h ih =>
    intro done cur rest
    have hq : quoteUnits (c :: d :: rest0) = quoteUnit c ++ quoteUnits (d :: rest0) := by
      rw [quoteUnits]; simp [h]
    rw [hq, List.append_assoc, parse_quoteUnit, ih]
    simp

/-- Reading a quoted string where an element may start. -/
theorem parse_quoteJSONString (done : List JSString) (s rest : JSString) :
    (quoteJSONString s ++ rest).foldlM parseStep (.afterComma done)
      = rest.foldlM parseStep (.afterValue (done ++ [s])) := by
  have e1 : parseStep (.afterComma done) 34 = some (.inString done []) := by
    simp [parseStep, isJSONSpace]
  have e2 : parseStep (.inString done s) 34 = some (.afterValue (done ++ [s])) := by
    simp [parseStep]
  simp only [quoteJSONString, List.cons_append, List.append_assoc, List.foldlM_cons, e1,
    Option.bind_eq_bind, Option.some_bind, parse_quoteUnits, List.nil_append, e2]

theorem parse_quoteJSONString_opened (s rest : JSString) :
    (quoteJSONString s ++ rest).foldlM parseStep .opened
      = rest.foldlM parseStep (.afterValue [s]) := by
  have e1 : parseStep .opened 34 = some (.inString [] []) := by
    simp [parseStep, isJSONSpace]
  have e2 : parseStep (.inString [] s) 34 = some (.afterValue [s]) := by
    simp [parseStep]
  simp only [quoteJSONString, List.cons_append, List.append_assoc, List.foldlM_cons, e1,
    Option.bind_eq_bind, Option.some_bind, parse_quoteUnits, List.nil_append, e2]

theorem intercalate_cons_cons (sep x y : JSString) (l : List JSString) :
    List.intercalate sep (x :: y :: l) = x ++ sep ++ List.intercalate sep (y :: l) := by
  simp [List.intercalate, List.intersperse]

/-- Reading the elements that follow the first one. -/
theorem parse_more (as : List JSString) : ∀ (done : List JSString) (rest : JSString),
    done ≠ [] →
    ((as.map (fun a => 44 :: quoteJSONString a)).flatten ++ rest).foldlM parseStep
        (.afterValue done)
      = rest.foldlM parseStep (.afterValue (done ++ as)) := by
  induction as with
  | nil => intro done rest _; simp
  | cons a as ih =>
    intro done rest hd
    have e1 : parseStep (.afterValue done) 44 = some (.afterComma done) := by
      simp [parseStep, isJSONSpace]
    simp only [List.map_cons, List.flatten_cons, List.cons_append, List.append_assoc,
      List.foldlM_cons, e1, Option.bind_eq_bind, Option.some_bind, parse_quoteJSONString]
    rw [ih (done ++ [a]) rest (by simp)]
    simp

theorem intercalate_comma (a : JSString) (as : List JSString) :
    List.intercalate [44] ((a :: as).map quoteJSONString)
      = quoteJSONString a ++ (as.map (fun a => 44 :: quoteJSONString a)).flatten := by
  induction as generalizing a with
  | nil => simp [List.intercalate, List.intersperse]
  | cons b bs ih =>
    rw [List.map_cons, List.map_cons, intercalate_cons_cons, ← List.map_cons, ih b]
    simp

/-- Parsing what `JSON.stringify` returned for an array of strings gives back the array. -/
theorem jsonParse_jsonStringify (args : List JSString) :
    jsonParse (jsonStringify args) = some args := by
  have e0 : parseStep .start 91 = some .opened := by simp [parseStep, isJSONSpace]
  rcases args with _ | ⟨a, as⟩
  · decide
  · have e1 : parseStep (.afterValue (a :: as)) 93 = some (.finished (a :: as)) := by
      simp [parseStep, isJSONSpace]
    unfold jsonParse jsonStringify
    rw [intercalate_comma]
    simp only [List.foldlM_cons, e0, Option.bind_eq_bind, Option.some_bind, List.append_assoc,
      parse_quoteJSONString_opened]
    rw [parse_more as [a] [93] (by simp)]
    simp [e1]

theorem dropLiteral_append (lit text : JSString) : dropLiteral lit (lit ++ text) = some text := by
  induction lit with
  | nil => cases text <;> simp [dropLiteral]
  | cons c lit ih => simp [dropLiteral, ih]

/-- Evaluating the module text written for an array of strings gives back the array. -/
theorem evalModule_stringify (args : List JSString) :
    evalModule (js "module.exports = " ++ jsonStringify args) = some args := by
  simp [evalModule, dropLiteral_append, jsonParse_jsonStringify]

/-! ## The file system -/

theorem splitSlash_joinSlash (names : List JSString) (hne : names ≠ [])
    (h : ∀ d ∈ names, slash ∉ d) : splitSlash (joinSlash names) = names := by
  induction names with
  | nil => exact absurd rfl hne
  | cons d ds ih =>
    have hd := h d (List.mem_cons_self _ _)
    rcases ds with _ | ⟨d2, ds⟩
    · have : joinSlash [d] = d := by simp [joinSlash, List.intercalate, List.intersperse]
      rw [this, splitSlash_of_not_mem hd]
    · rw [joinSlash_cons_cons, splitSlash_append, splitSlash_of_not_mem hd,
        ih (by simp) (fun x hx => h x (List.mem_cons_of_mem _ hx))]
      rfl

/-- The components of an absolute path of names: an empty one, then the names. -/
theorem splitSlash_absolutePath (names : List JSString) (hne : names ≠ [])
    (h : ∀ d ∈ names, slash ∉ d) : splitSlash (absolutePath names) = [] :: names := by
  unfold absolutePath
  rw [show slash :: joinSlash names = [] ++ slash :: joinSlash names from rfl, splitSlash_append,
    splitSlash_joinSlash names hne h]
  rfl

theorem search_of_isSearchable (fs : FileSystem) (loc : Location)
    (h : fs.isSearchable loc = true) : fs.search loc = .ok () := by
  unfold FileSystem.isSearchable at h
  unfold FileSystem.search
  rcases he : fs.entries loc with _ | ⟨s, w⟩ | ⟨c, w⟩ <;> simp [he] at h ⊢
  exact h

/-- The lookup of names through directories the process may search ends at their location. -/
theorem walk_names (fs : FileSystem) (names : List JSString) :
    ∀ cur : Location,
      (∀ d ∈ names, d ≠ [] ∧ d ≠ [dot] ∧ d ≠ [dot, dot] ∧ utf8Length d ≤ fs.nameMax) →
      (∀ n < names.length, fs.isSearchable (cur ++ (locate names).take n) = true) →
      fs.walk cur names = .ok (cur ++ locate names) := by
  induction names with
  | nil => intro cur _ _; simp [FileSystem.walk, locate]
  | cons d ds ih =>
    intro cur hn hs
    obtain ⟨h1, h2, h3, h4⟩ := hn d (List.mem_cons_self _ _)
    have h0 : fs.isSearchable cur = true := by simpa using hs 0 (by simp)
    have hstep : fs.step cur d = .ok (cur ++ [toWellFormed d]) := by
      simp [FileSystem.step, search_of_isSearchable fs cur h0, h1, h2, h3, Nat.not_lt.2 h4]
    have hrest := ih (cur ++ [toWellFormed d])
      (fun x hx => hn x (List.mem_cons_of_mem _ hx))
      (fun n hlt => by
        have := hs (n + 1) (by simpa using hlt)
        simpa [locate] using this)
    simp only [FileSystem.walk, hstep, hrest]
    simp [locate]

theorem openWrite_of_isWritable (fs : FileSystem) (loc : Location) (data : JSString)
    (h : fs.isWritable loc = true) :
    ∃ w, fs.openWrite loc data = .ok (fs.set loc (.file data w)) := by
  unfold FileSystem.isWritable at h
  unfold FileSystem.openWrite
  rcases he : fs.entries loc with _ | ⟨s, w⟩ | ⟨c, w⟩
  · rcases hp : fs.entries loc.dropLast with _ | ⟨s, w⟩ | ⟨c, w⟩ <;> simp [he, hp] at h
    exact ⟨true, by simp [hp, h]⟩
  · simp [he] at h
  · simp [he] at h
    exact ⟨w, by simp [h]⟩

/-- Where the file system admits it, `fs.writeFileSync` at an absolute path of names leaves the
file system with the file at the location of the path holding the data, and nothing else
changed. -/
theorem writeFileSync_admits (cwd : JSString) (dir : List JSString) (name data : JSString)
    (fs : FileSystem) (hnames : ∀ d ∈ dir ++ [name], isEntryName d) (h : fs.admits dir name) :
    ∃ w, writeFileSync cwd (absolutePath (dir ++ [name])) data fs
      = .ok (fs.set (locate (dir ++ [name])) (.file (toWellFormed data) w)) := by
  obtain ⟨hsearch, hlen, hpath, hwrite⟩ := h
  have hnul : (0 : CodeUnit) ∉ absolutePath (dir ++ [name]) :=
    not_mem_absolutePath (by decide) _ (fun d hd => (hnames d hd).2.2.1)
  have hne : absolutePath (dir ++ [name]) ≠ [] := by simp [absolutePath]
  have hhead : (absolutePath (dir ++ [name])).head? = some slash := by simp [absolutePath]
  have hsplit := splitSlash_absolutePath (dir ++ [name]) (by simp)
    (fun d hd => (hnames d hd).2.1)
  have hroot : fs.step [] [] = .ok [] := by
    have h0 : fs.isSearchable [] = true := by simpa using hsearch 0 (Nat.zero_le _)
    simp [FileSystem.step, search_of_isSearchable fs [] h0]
  have hwalk : fs.walk [] (dir ++ [name]) = .ok ([] ++ locate (dir ++ [name])) := by
    apply walk_names
    · intro d hd
      exact ⟨(hnames d hd).1, (hnames d hd).2.2.2.1, (hnames d hd).2.2.2.2, hlen d hd⟩
    · intro n hn
      have hn2 : n ≤ dir.length := by
        simp only [List.length_append, List.length_singleton] at hn
        omega
      have := hsearch n hn2
      have ht : (locate (dir ++ [name])).take n = (locate dir).take n := by
        simp only [locate, List.map_append]
        exact List.take_append_of_le_length (by simpa using hn2)
      simpa [ht] using this
  obtain ⟨w, hopen⟩ := openWrite_of_isWritable fs (locate (dir ++ [name])) (toWellFormed data)
    hwrite
  refine ⟨w, ?_⟩
  have hfull : fs.walk [] (splitSlash (absolutePath (dir ++ [name])))
      = .ok (locate (dir ++ [name])) := by
    rw [hsplit, FileSystem.walk, hroot]
    simpa using hwalk
  unfold writeFileSync
  simp only [hnul, hne, hhead, Nat.not_le.2 hpath, if_false, if_true]
  rw [hfull]
  simp only [hopen]

theorem set_entries_self (fs : FileSystem) (loc : Location) (entry : Entry) :
    (fs.set loc entry).entries loc = some entry := by
  simp [FileSystem.set]

theorem set_entries_other (fs : FileSystem) (loc : Location) (entry : Entry) (l : Location)
    (h : l ≠ loc) : (fs.set loc entry).entries l = fs.entries l := by
  simp [FileSystem.set, h]

/-! ## UTF-8 and the text of the module -/

theorem toWellFormed_cons_of_not_surrogate {c : CodeUnit} (hc : isSurrogate c = false)
    (rest : JSString) : toWellFormed (c :: rest) = c :: toWellFormed rest := by
  have hl : isLeadSurrogate c = false := by
    simp only [isSurrogate, Bool.or_eq_false_iff] at hc
    exact hc.1
  rcases rest with _ | ⟨d, rest⟩
  · simp [toWellFormed, replaceSurrogate, hc]
  · rw [toWellFormed]
    simp [hl, replaceSurrogate, hc]

/-- The encoder leaves a string without surrogates as it is, whatever follows it. -/
theorem toWellFormed_append_of_not_surrogate (a : JSString)
    (ha : ∀ c ∈ a, isSurrogate c = false) (b : JSString) :
    toWellFormed (a ++ b) = a ++ toWellFormed b := by
  induction a with
  | nil => rfl
  | cons c a ih =>
    rw [List.cons_append, toWellFormed_cons_of_not_surrogate (ha c (List.mem_cons_self _ _)),
      ih (fun x hx => ha x (List.mem_cons_of_mem _ hx))]
    rfl

theorem hexDigit_not_surrogate : ∀ n, n < 16 → isSurrogate (hexDigit n) = false := by decide

theorem escape_not_surrogate (b : CodeUnit) (hb : isSurrogate b = false) :
    ∀ x ∈ [(92 : CodeUnit), b], isSurrogate x = false := by
  intro x hx
  simp only [List.mem_cons, List.mem_singleton, List.not_mem_nil, or_false] at hx
  rcases hx with rfl | rfl
  · decide
  · exact hb

theorem quoteUnit_not_surrogate (c : CodeUnit) : ∀ x ∈ quoteUnit c, isSurrogate x = false := by
  unfold quoteUnit
  split
  · exact escape_not_surrogate _ (by decide)
  split
  · exact escape_not_surrogate _ (by decide)
  split
  · exact escape_not_surrogate _ (by decide)
  split
  · exact escape_not_surrogate _ (by decide)
  split
  · exact escape_not_surrogate _ (by decide)
  split
  · exact escape_not_surrogate _ (by decide)
  split
  · exact escape_not_surrogate _ (by decide)
  split
  · intro x hx
    simp only [unicodeEscape, List.mem_cons, List.mem_singleton, List.not_mem_nil,
      or_false] at hx
    rcases hx with rfl | rfl | rfl | rfl | rfl | rfl
    · decide
    · decide
    · exact hexDigit_not_surrogate _ (Nat.mod_lt _ (by decide))
    · exact hexDigit_not_surrogate _ (Nat.mod_lt _ (by decide))
    · exact hexDigit_not_surrogate _ (Nat.mod_lt _ (by decide))
    · exact hexDigit_not_surrogate _ (Nat.mod_lt _ (by decide))
  · next h =>
    intro x hx
    simp only [List.mem_singleton] at hx
    subst hx
    simp only [not_or, Bool.not_eq_true] at h
    simp [isSurrogate, h.2.1, h.2.2]

/-- What `QuoteJSONString` emits is written to the file as it is. -/
theorem toWellFormed_quoteUnits (s : JSString) : ∀ rest : JSString,
    toWellFormed (quoteUnits s ++ rest) = quoteUnits s ++ toWellFormed rest := by
  induction s using quoteUnits.induct with
  | case1 => intro rest; simp [quoteUnits]
  | case2 c =>
    intro rest
    simp only [quoteUnits]
    exact toWellFormed_append_of_not_surrogate _ (quoteUnit_not_surrogate c) rest
  | case3 c d rest0 h ih =>
    intro rest
    have hq : quoteUnits (c :: d :: rest0) = c :: d :: quoteUnits rest0 := by
      rw [quoteUnits]; simp [h]
    rw [hq, List.cons_append, List.cons_append, toWellFormed]
    simp [h, ih]
  | case4 c d rest0 h ih =>
    intro rest
    have hq : quoteUnits (c :: d :: rest0) = quoteUnit c ++ quoteUnits (d :: rest0) := by
      rw [quoteUnits]; simp [h]
    rw [hq, List.append_assoc,
      toWellFormed_append_of_not_surrogate _ (quoteUnit_not_surrogate c), ih]
    simp

theorem toWellFormed_quoteJSONString (a rest : JSString) :
    toWellFormed (quoteJSONString a ++ rest) = quoteJSONString a ++ toWellFormed rest := by
  have h34 : isSurrogate (34 : CodeUnit) = false := by decide
  unfold quoteJSONString
  rw [List.cons_append, List.append_assoc, toWellFormed_cons_of_not_surrogate h34,
    toWellFormed_quoteUnits, List.singleton_append, toWellFormed_cons_of_not_surrogate h34]
  simp

theorem toWellFormed_elements (as : List JSString) (rest : JSString) :
    toWellFormed ((as.map (fun a => 44 :: quoteJSONString a)).flatten ++ rest)
      = (as.map (fun a => 44 :: quoteJSONString a)).flatten ++ toWellFormed rest := by
  induction as with
  | nil => simp
  | cons a as ih =>
    have h44 : isSurrogate (44 : CodeUnit) = false := by decide
    rw [List.map_cons, List.flatten_cons, List.append_assoc, List.cons_append,
      toWellFormed_cons_of_not_surrogate h44, toWellFormed_quoteJSONString, ih]
    simp

/-- The text `JSON.stringify` returns for an array of strings is written to the file as it is. -/
theorem toWellFormed_jsonStringify (args : List JSString) :
    toWellFormed (jsonStringify args) = jsonStringify args := by
  have h91 : isSurrogate (91 : CodeUnit) = false := by decide
  rcases args with _ | ⟨a, as⟩
  · decide
  · unfold jsonStringify
    rw [intercalate_comma, toWellFormed_cons_of_not_surrogate h91, List.append_assoc,
      toWellFormed_quoteJSONString, toWellFormed_elements]
    rfl

theorem moduleExports_not_surrogate :
    ∀ c ∈ js "module.exports = ", isSurrogate c = false := by
  intro c hc
  have h : js "module.exports = "
      = [109, 111, 100, 117, 108, 101, 46, 101, 120, 112, 111, 114, 116, 115, 32, 61, 32] := by
    decide
  rw [h] at hc
  simp only [List.mem_cons, List.mem_singleton, List.not_mem_nil, or_false] at hc
  rcases hc with rfl | rfl | rfl | rfl | rfl | rfl | rfl | rfl | rfl | rfl | rfl | rfl | rfl
    | rfl | rfl | rfl | rfl <;> decide

/-- The module text written for an array of strings is written to the file as it is. -/
theorem toWellFormed_module (args : List JSString) :
    toWellFormed (js "module.exports = " ++ jsonStringify args)
      = js "module.exports = " ++ jsonStringify args := by
  rw [toWellFormed_append_of_not_surrogate _ moduleExports_not_surrogate,
    toWellFormed_jsonStringify]

/-! ## The helper `saveArguments` -/

theorem absolutePath_append_singleton_inj (segs : List JSString) {x y : JSString}
    (h : absolutePath (segs ++ [x]) = absolutePath (segs ++ [y])) : x = y := by
  unfold absolutePath at h
  rw [List.cons.injEq, joinSlash_append_singleton, joinSlash_append_singleton] at h
  have h2 := h.2
  split at h2
  · exact h2
  · simpa using h2

/-- The path of the file `saveArguments` writes for a suffix that is a plain file name. -/
theorem pathFile_string (env : Env) (dirs : List JSString) (hcwd : env.cwd = absolutePath dirs)
    (hdirs : ∀ d ∈ dirs, isEntryName d) {s : JSString} (hs : isPlainFileName s) :
    pathFile env (.string s) = absolutePath (dirs ++ [js "arguments", s ++ js ".js"]) := by
  obtain ⟨k0, k1, k2, k3⟩ := suffix_name_kept hs
  have h1 := hs.1
  simp only [pathFile, JSValue.truthy, JSValue.toStr, ne_eq, h1, not_false_eq_true, decide_True,
    if_true]
  exact pathJoin_argsPath env dirs hcwd hdirs k0 k1 k2 k3

/-- The path of the file `saveArguments` writes for a suffix that is not truthy. -/
theorem pathFile_falsy (env : Env) (dirs : List JSString) (hcwd : env.cwd = absolutePath dirs)
    (hdirs : ∀ d ∈ dirs, isEntryName d) (dir : JSString) {name : JSString}
    (hfile : env.filename = dir ++ slash :: name) (hname : isEntryName name)
    (subfx : JSValue) (hsub : subfx.truthy = false) :
    pathFile env subfx = absolutePath (dirs ++ [js "arguments", name]) := by
  simp only [pathFile, hsub, Bool.false_eq_true, if_false, hfile,
    pathBasename_append dir hname.2.1 hname.1]
  exact pathJoin_argsPath env dirs hcwd hdirs hname.2.1 hname.1 hname.2.2.2.1 hname.2.2.2.2

/-- The call `saveArguments(args, subfx)` is `JSON.stringify(args)` followed by one
`fs.writeFileSync` at `pathFile`. -/
theorem saveArguments_eq {α : Type} [JSONValue α] (env : Env) (args : α) (subfx : JSValue)
    (fs : FileSystem) :
    saveArguments env args subfx fs
      = match JSONValue.stringify args with
        | .error e => .error e
        | .ok r => writeFileSync env.cwd (pathFile env subfx) (moduleData r) fs := by
  unfold saveArguments
  rcases JSONValue.stringify args with e | r <;> rfl

theorem names_of_target (dirs : List JSString) (hdirs : ∀ d ∈ dirs, isEntryName d)
    {name : JSString} (hname : isEntryName name) :
    ∀ d ∈ (dirs ++ [js "arguments"]) ++ [name], isEntryName d := by
  intro d hd
  simp only [List.mem_append, List.mem_singleton] at hd
  rcases hd with (hd | rfl) | rfl
  · exact hdirs d hd
  · exact js_arguments_name
  · exact hname

/-- Where the file system admits the write, `saveArguments` leaves the file of its path holding
the module text and changes nothing else. -/
theorem saveArguments_written {α : Type} [JSONValue α] (env : Env) (args : α) (subfx : JSValue)
    (fs : FileSystem) (dirs : List JSString) (hdirs : ∀ d ∈ dirs, isEntryName d)
    (name : JSString) (hname : isEntryName name)
    (hp : pathFile env subfx = absolutePath (dirs ++ [js "arguments", name]))
    (r : Option JSString) (hr : JSONValue.stringify args = .ok r)
    (h : fs.admits (dirs ++ [js "arguments"]) name) :
    ∃ fs' w, saveArguments env args subfx fs = .ok fs'
      ∧ fs'.entries (locate (dirs ++ [js "arguments", name]))
          = some (.file (toWellFormed (moduleData r)) w)
      ∧ ∀ l, l ≠ locate (dirs ++ [js "arguments", name]) → fs'.entries l = fs.entries l := by
  obtain ⟨w, hw⟩ := writeFileSync_admits env.cwd (dirs ++ [js "arguments"]) name (moduleData r)
    fs (names_of_target dirs hdirs hname) h
  have he : (dirs ++ [js "arguments"]) ++ [name] = dirs ++ [js "arguments", name] := by simp
  rw [he] at hw
  refine ⟨_, w, ?_, set_entries_self _ _ _, fun l hl => set_entries_other _ _ _ l hl⟩
  rw [saveArguments_eq, hr, hp]
  exact hw

/-- C7, as amended. For every list of strings `args` and every suffix `s` that is a plain file
name, `saveArguments(args, s)` is exactly one `fs.writeFileSync` of the text `module.exports = `
followed by `JSON.stringify(args)` at `<cwd>/arguments/<s>.js`, with no check of what is there,
and evaluating that text gives back a list equal to `args`. When `s` has no null byte and the
file system admits the write (the directories down to `<cwd>/arguments` exist and may be
searched, the names fit, the file is absent from a writable directory or is a writable regular
file), the call leaves that file holding exactly that text, whatever it held before, and changes
no other entry. -/
theorem saveArguments_writes_module (env : Env) (dirs : List JSString)
    (hcwd : env.cwd = absolutePath dirs) (hdirs : ∀ d ∈ dirs, isEntryName d)
    (args : List JSString) (s : JSString) (hs : isPlainFileName s) (fs : FileSystem) :
    saveArguments env args (.string s) fs
        = writeFileSync env.cwd (absolutePath (dirs ++ [js "arguments", s ++ js ".js"]))
            (js "module.exports = " ++ jsonStringify args) fs
      ∧ evalModule (js "module.exports = " ++ jsonStringify args) = some args
      ∧ ((0 : CodeUnit) ∉ s → fs.admits (dirs ++ [js "arguments"]) (s ++ js ".js") →
          ∃ fs' w, saveArguments env args (.string s) fs = .ok fs'
            ∧ fs'.entries (locate (dirs ++ [js "arguments", s ++ js ".js"]))
                = some (.file (js "module.exports = " ++ jsonStringify args) w)
            ∧ ∀ l, l ≠ locate (dirs ++ [js "arguments", s ++ js ".js"]) →
                fs'.entries l = fs.entries l) := by
  have hp := pathFile_string env dirs hcwd hdirs hs
  have hr : JSONValue.stringify args = .ok (some (jsonStringify args)) := rfl
  have hd : moduleData (some (jsonStringify args))
      = js "module.exports = " ++ jsonStringify args := rfl
  refine ⟨?_, evalModule_stringify args, ?_⟩
  · rw [saveArguments_eq, hr, hp]
    rfl
  · intro hnul hfs
    have h := saveArguments_written env args (.string s) fs dirs hdirs (s ++ js ".js")
      (suffix_name_entry hs hnul) hp _ hr hfs
    rw [hd, toWellFormed_module] at h
    exact h

/-- The directory names of the working directory of the example environment. -/
theorem sampleEnv_dirs : ∀ d ∈ [js "home", js "dev", js "market"], isEntryName d := by decide

/-- The call `saveArguments(["MarketCollection", "MKC"], "erc721")` in the example environment,
on the example file system, where `arguments/erc721.js` held another text. -/
theorem saveArguments_writes_module_witness :
    ∃ fs' w, saveArguments sampleEnv [js "MarketCollection", js "MKC"] (.string (js "erc721"))
          sampleFiles = .ok fs'
      ∧ fs'.entries (locate ([js "home", js "dev", js "market"]
            ++ [js "arguments", js "erc721" ++ js ".js"]))
          = some (.file (js "module.exports = "
              ++ jsonStringify [js "MarketCollection", js "MKC"]) w)
      ∧ ∀ l, l ≠ locate ([js "home", js "dev", js "market"]
            ++ [js "arguments", js "erc721" ++ js ".js"]) →
          fs'.entries l = sampleFiles.entries l :=
  (saveArguments_writes_module sampleEnv [js "home", js "dev", js "market"] rfl sampleEnv_dirs
    [js "MarketCollection", js "MKC"] (js "erc721") (by decide) sampleFiles).2.2
    (by decide) (by decide)

set_option maxRecDepth 100000 in
/-- C7, as it was stated, fails: the call `saveArguments(["MarketCollection", "MKC"], s)` throws
and leaves no file `arguments/<s>.js` with the module text
* with `ENOENT` for `s = "erc721"` in the example project without a directory `arguments`;
* with `ERR_INVALID_ARG_VALUE` for the suffix `a\0b`, not empty and without a path separator;
* with `ENOTDIR` when `arguments` is a regular file, and with `EACCES` when it is a directory
  the process may not search, or may not write while `erc721.js` is absent;
* with `EISDIR` when `arguments/erc721.js` is a directory, and with `EACCES` when it is a file
  the process may not write;
* with `ENAMETOOLONG` for a suffix of 253 letters `a`, whose file name has 256 bytes. -/
theorem saveArguments_writes_module_counterexample :
    (isPlainFileName (js "erc721")
      ∧ saveArguments sampleEnv [js "MarketCollection", js "MKC"] (.string (js "erc721"))
          bareFiles = .error (.system .ENOENT)
      ∧ bareFiles.entries (locate [js "home", js "dev", js "market", js "arguments",
          js "erc721.js"]) = none)
      ∧ (isPlainFileName [97, 0, 98]
        ∧ saveArguments sampleEnv [js "MarketCollection", js "MKC"] (.string [97, 0, 98])
            sampleFiles = .error .invalidArgValue)
      ∧ saveArguments sampleEnv [js "MarketCollection", js "MKC"] (.string (js "erc721"))
          (projectFiles (some (.file [] true)) none) = .error (.system .ENOTDIR)
      ∧ saveArguments sampleEnv [js "MarketCollection", js "MKC"] (.string (js "erc721"))
          (projectFiles (some (.directory false true)) none) = .error (.system .EACCES)
      ∧ saveArguments sampleEnv [js "MarketCollection", js "MKC"] (.string (js "erc721"))
          (projectFiles (some (.directory true false)) none) = .error (.system .EACCES)
      ∧ saveArguments sampleEnv [js "MarketCollection", js "MKC"] (.string (js "erc721"))
          (projectFiles (some (.directory true true)) (some (.directory true true)))
          = .error (.system .EISDIR)
      ∧ saveArguments sampleEnv [js "MarketCollection", js "MKC"] (.string (js "erc721"))
          (projectFiles (some (.directory true true)) (some (.file [] false)))
          = .error (.system .EACCES)
      ∧ (isPlainFileName (List.replicate 253 97)
        ∧ saveArguments sampleEnv [js "MarketCollection", js "MKC"]
            (.string (List.replicate 253 97)) sampleFiles = .error (.system .ENAMETOOLONG)) :=
  ⟨⟨by decide, rfl, by decide⟩, ⟨by decide, rfl⟩, rfl, rfl, rfl, rfl, rfl, by decide, rfl⟩

/-- C8. For every `args` value, `saveArguments` called without a suffix targets the file of the
`arguments` directory named by the base name of the running script's own file (`deploy.js` for
this script): the path is `<cwd>/arguments/<name>`, with no `.js` appended to the name. The call
throws what `JSON.stringify` throws, and is otherwise one `fs.writeFileSync` of the module text at
that path; where the file system admits the write, that file holds the text afterwards and no
other entry is changed. -/
theorem saveArguments_default_name {α : Type} [JSONValue α] (env : Env) (dirs : List JSString)
    (hcwd : env.cwd = absolutePath dirs) (hdirs : ∀ d ∈ dirs, isEntryName d)
    (dir name : JSString) (hfile : env.filename = dir ++ slash :: name)
    (hname : isEntryName name) (args : α) (fs : FileSystem) :
    pathFile env .undefined = absolutePath (dirs ++ [js "arguments", name])
      ∧ pathFile env .undefined ≠ absolutePath (dirs ++ [js "arguments", name ++ js ".js"])
      ∧ (∀ e, JSONValue.stringify args = .error e →
          saveArguments env args .undefined fs = .error e)
      ∧ (∀ r, JSONValue.stringify args = .ok r →
          saveArguments env args .undefined fs
            = writeFileSync env.cwd (absolutePath (dirs ++ [js "arguments", name]))
                (moduleData r) fs)
      ∧ (∀ r, JSONValue.stringify args = .ok r → fs.admits (dirs ++ [js "arguments"]) name →
          ∃ fs' w, saveArguments env args .undefined fs = .ok fs'
            ∧ fs'.entries (locate (dirs ++ [js "arguments", name]))
                = some (.file (toWellFormed (moduleData r)) w)
            ∧ ∀ l, l ≠ locate (dirs ++ [js "arguments", name]) →
                fs'.entries l = fs.entries l) := by
  have hp := pathFile_falsy env dirs hcwd hdirs dir hfile hname .undefined rfl
  refine ⟨hp, ?_, ?_, ?_, ?_⟩
  · rw [hp]
    intro h
    have h2 := absolutePath_append_singleton_inj (dirs ++ [js "arguments"])
      (by simpa using h)
    have h3 := congrArg List.length h2
    rw [js_dotJs] at h3
    simp at h3
  · intro e he
    rw [saveArguments_eq, he]
  · intro r hr
    rw [saveArguments_eq, hr, hp]
  · intro r hr hfs
    exact saveArguments_written env args .undefined fs dirs hdirs name hname hp r hr hfs

/-- The call `saveArguments(["MarketCollection", "MKC"])` in the example environment, on the
example file system: the file `arguments/deploy.js` is created. -/
theorem saveArguments_default_name_witness :
    ∃ fs' w, saveArguments sampleEnv [js "MarketCollection", js "MKC"] .undefined sampleFiles
          = .ok fs'
      ∧ fs'.entries (locate ([js "home", js "dev", js "market"]
            ++ [js "arguments", js "deploy.js"]))
          = some (.file (toWellFormed (moduleData
              (some (jsonStringify [js "MarketCollection", js "MKC"])))) w)
      ∧ ∀ l, l ≠ locate ([js "home", js "dev", js "market"]
            ++ [js "arguments", js "deploy.js"]) →
          fs'.entries l = sampleFiles.entries l :=
  (saveArguments_default_name sampleEnv [js "home", js "dev", js "market"] rfl
    sampleEnv_dirs (absolutePath [js "home", js "dev", js "market", js "scripts"])
    (js "deploy.js") rfl (by decide) [js "MarketCollection", js "MKC"] sampleFiles).2.2.2.2
    _ rfl (by decide)

/-- C10. For this script, whose file is named `deploy.js`, an empty-string suffix is treated as no
suffix: for every `args` value `saveArguments(args, "")` does what `saveArguments(args)` does, one
`fs.writeFileSync` of the module text at `<cwd>/arguments/deploy.js` and not at
`<cwd>/arguments/.js`; where the file system admits the write, `<cwd>/arguments/deploy.js` holds
the text afterwards and no other entry is changed. For every suffix, the file name given to
`path.join` is `<suffix>.js` if and only if the suffix is truthy. -/
theorem saveArguments_empty_suffix {α : Type} [JSONValue α] (env : Env) (dirs : List JSString)
    (hcwd : env.cwd = absolutePath dirs) (hdirs : ∀ d ∈ dirs, isEntryName d)
    (dir : JSString) (hfile : env.filename = dir ++ js "/deploy.js") (args : α)
    (fs : FileSystem) :
    saveArguments env args (.string []) fs = saveArguments env args .undefined fs
      ∧ pathFile env (.string []) = pathFile env .undefined
      ∧ pathFile env (.string []) = absolutePath (dirs ++ [js "arguments", js "deploy.js"])
      ∧ pathFile env (.string []) ≠ absolutePath (dirs ++ [js "arguments", js ".js"])
      ∧ (∀ r, JSONValue.stringify args = .ok r →
          saveArguments env args (.string []) fs
            = writeFileSync env.cwd (absolutePath (dirs ++ [js "arguments", js "deploy.js"]))
                (moduleData r) fs)
      ∧ (∀ r, JSONValue.stringify args = .ok r →
          fs.admits (dirs ++ [js "arguments"]) (js "deploy.js") →
          ∃ fs' w, saveArguments env args (.string []) fs = .ok fs'
            ∧ fs'.entries (locate (dirs ++ [js "arguments", js "deploy.js"]))
                = some (.file (toWellFormed (moduleData r)) w)
            ∧ ∀ l, l ≠ locate (dirs ++ [js "arguments", js "deploy.js"]) →
                fs'.entries l = fs.entries l)
      ∧ ∀ subfx : JSValue,
          pathFile env subfx = pathJoin [argsPath env, subfx.toStr ++ js ".js"]
            ↔ subfx.truthy = true := by
  have hname : isEntryName (js "deploy.js") := by decide
  have hfile2 : env.filename = dir ++ slash :: js "deploy.js" := by
    rw [hfile]; congr 1
  have hfalsy : ∀ subfx : JSValue, subfx.truthy = false →
      pathFile env subfx = absolutePath (dirs ++ [js "arguments", js "deploy.js"]) :=
    fun subfx h => pathFile_falsy env dirs hcwd hdirs dir hfile2 hname subfx h
  have hkept : ∀ x : JSString, x = js "undefined" ∨ x = js "null" ∨ x = js "false" ∨ x = [] →
      pathJoin [argsPath env, x ++ js ".js"] ≠ absolutePath (dirs ++ [js "arguments", js "deploy.js"])
        := by
    intro x hx h
    have hk : slash ∉ x ++ js ".js" ∧ x ++ js ".js" ≠ [] ∧ x ++ js ".js" ≠ [dot]
        ∧ x ++ js ".js" ≠ [dot, dot] ∧ x ++ js ".js" ≠ js "deploy.js" := by
      rcases hx with rfl | rfl | rfl | rfl <;> decide
    rw [pathJoin_argsPath env dirs hcwd hdirs hk.1 hk.2.1 hk.2.2.1 hk.2.2.2.1] at h
    exact hk.2.2.2.2 (absolutePath_append_singleton_inj (dirs ++ [js "arguments"])
      (by simpa using h))
  have he := hfalsy (.string []) (by decide)
  have hu := hfalsy .undefined rfl
  refine ⟨?_, he.trans hu.symm, he, ?_, ?_, ?_, ?_⟩
  · simp only [saveArguments, he, hu]
  · rw [he]
    intro h
    have h2 := absolutePath_append_singleton_inj (dirs ++ [js "arguments"]) (by simpa using h)
    revert h2
    decide
  · intro r hr
    rw [saveArguments_eq, hr, he]
  · intro r hr hfs
    exact saveArguments_written env args (.string []) fs dirs hdirs (js "deploy.js") hname he
      r hr hfs
  · intro subfx
    constructor
    · intro h
      by_contra hn
      have hf : subfx.truthy = false := by simpa using hn
      rw [hfalsy subfx hf] at h
      refine hkept subfx.toStr ?_ h.symm
      rcases subfx with _ | _ | b | s
      · exact Or.inl rfl
      · exact Or.inr (Or.inl rfl)
      · cases b
        · exact Or.inr (Or.inr (Or.inl rfl))
        · simp [JSValue.truthy] at hf
      · right; right; right
        simpa [JSValue.truthy] using hf
    · intro h
      simp [pathFile, h]

/-- The call `saveArguments(["MarketCollection", "MKC"], "")` in the example environment, on the
example file system: the empty suffix creates the file `arguments/deploy.js`. -/
theorem saveArguments_empty_suffix_witness :
    ∃ fs' w, saveArguments sampleEnv [js "MarketCollection", js "MKC"] (.string []) sampleFiles
          = .ok fs'
      ∧ fs'.entries (locate ([js "home", js "dev", js "market"]
            ++ [js "arguments", js "deploy.js"]))
          = some (.file (toWellFormed (moduleData
              (some (jsonStringify [js "MarketCollection", js "MKC"])))) w)
      ∧ ∀ l, l ≠ locate ([js "home", js "dev", js "market"]
            ++ [js "arguments", js "deploy.js"]) →
          fs'.entries l = sampleFiles.entries l :=
  (saveArguments_empty_suffix sampleEnv [js "home", js "dev", js "market"] rfl sampleEnv_dirs
    (absolutePath [js "home", js "dev", js "market", js "scripts"]) rfl
    [js "MarketCollection", js "MKC"] sampleFiles).2.2.2.2.2.1 _ rfl (by decide)

end Deploy
